import Mathlib

/-!
Verification development for `hydra_example.py`: a hydra/OmegaConf
configuration loader combined with pydantic schema validation.

The untyped configuration tree produced by the loader is embedded as
`ConfigValue`/`Fields` (string-keyed mappings with scalar leaves).  The
pydantic models `DataConfig`, `ModelConfig` and `ProjectConfig`
(declared with `extra="forbid"`, `validate_assignment=True`) are embedded
as Lean structures together with validation functions that collect all
field errors, reject undeclared keys, and re-validate on assignment.
Filesystem existence (for `DirectoryPath | FilePath`) is a parameter
`FileSystem`.  The YAML serialization used for logging (an external
OmegaConf service) is modelled as an indentation-based emitter/parser.
-/

/-- A scalar leaf of the untyped configuration tree: a string or an
integer, as produced by the YAML loader. -/
inductive Scalar where
  | str (s : String)
  | int (n : Int)
deriving DecidableEq, Repr

mutual
/-- An untyped configuration value: a scalar leaf or a nested mapping. -/
inductive ConfigValue where
  | scalar (s : Scalar)
  | map (fields : Fields)
deriving DecidableEq, Repr

/-- A string-keyed association list of configuration values (the shape of
an OmegaConf `DictConfig`). -/
inductive Fields where
  | nil
  | cons (k : String) (v : ConfigValue) (rest : Fields)
deriving DecidableEq, Repr
end

/-- First value bound to key `k`, as Python keyword lookup would see it. -/
def Fields.lookup : Fields → String → Option ConfigValue
  | .nil, _ => none
  | .cons k v rest, k' => if k = k' then some v else rest.lookup k'

/-- The keys of a mapping, in order. -/
def Fields.keys : Fields → List String
  | .nil => []
  | .cons k _ rest => k :: rest.keys

/-- What the filesystem says about a path: existing directory, existing
file, or nothing there. -/
inductive PathKind where
  | dir
  | file
  | missing
deriving DecidableEq, Repr

/-- Abstract filesystem state consulted by the `DirectoryPath | FilePath`
validators. -/
structure FileSystem where
  kind : String → PathKind

/-- A calendar date (`datetime.date`). -/
structure ConfigDate where
  year : Nat
  month : Nat
  day : Nat
deriving DecidableEq, Repr

def isLeapYear (y : Nat) : Bool :=
  (y % 4 = 0 && y % 100 ≠ 0) || y % 400 = 0

def daysInMonth (y m : Nat) : Nat :=
  if m = 2 then (if isLeapYear y then 29 else 28)
  else if m = 4 || m = 6 || m = 9 || m = 11 then 30
  else 31

def validDate (y m d : Nat) : Bool :=
  1 ≤ m && m ≤ 12 && 1 ≤ d && d ≤ daysInMonth y m

def charDigit? (c : Char) : Option Nat :=
  if '0' ≤ c ∧ c ≤ '9' then some (c.toNat - 48) else none

/-- ISO `YYYY-MM-DD` date parsing, as pydantic does for `date` fields. -/
def parseDate (s : String) : Option ConfigDate :=
  match s.data with
  | [y1, y2, y3, y4, '-', m1, m2, '-', d1, d2] =>
    match charDigit? y1, charDigit? y2, charDigit? y3, charDigit? y4,
          charDigit? m1, charDigit? m2, charDigit? d1, charDigit? d2 with
    | some a, some b, some c, some d, some e, some f, some g, some h =>
      if validDate (((a * 10 + b) * 10 + c) * 10 + d) (e * 10 + f) (g * 10 + h) then
        some ⟨((a * 10 + b) * 10 + c) * 10 + d, e * 10 + f, g * 10 + h⟩
      else none
    | _, _, _, _, _, _, _, _ => none
  | _ => none

/-- The validated `DataConfig` record. -/
structure DataConfig where
  data_format : String
  input_path : String
  start_date : ConfigDate
  window : Int
deriving DecidableEq, Repr

/-- The validated `ModelConfig` record. -/
structure ModelConfig where
  num_estimators : Int
  max_depth : Int
deriving DecidableEq, Repr

/-- The validated `ProjectConfig` record. -/
structure ProjectConfig where
  data : DataConfig
  model : ModelConfig
deriving DecidableEq, Repr

/-- One entry of a pydantic `ValidationError`: the location path of the
offending field and the constraint violated. -/
structure ValidationError where
  loc : List String
  msg : String
deriving DecidableEq, Repr

def declaredData : List String := ["data_format", "input_path", "start_date", "window"]

def declaredModel : List String := ["num_estimators", "max_depth"]

def declaredProject : List String := ["data", "model"]

/-- `Literal["DB", "SAP"]` field validation. -/
def checkDataFormat : Option ConfigValue → Except ValidationError String
  | none => .error ⟨["data_format"], "missing"⟩
  | some (.scalar (.str s)) =>
    if s = "DB" ∨ s = "SAP" then .ok s else .error ⟨["data_format"], "literal_error"⟩
  | some _ => .error ⟨["data_format"], "literal_error"⟩

/-- `DirectoryPath | FilePath` field validation: the path must exist as a
directory or as a file. -/
def checkInputPath (fs : FileSystem) : Option ConfigValue → Except ValidationError String
  | none => .error ⟨["input_path"], "missing"⟩
  | some (.scalar (.str p)) =>
    match fs.kind p with
    | .dir => .ok p
    | .file => .ok p
    | .missing => .error ⟨["input_path"], "path_not_exists"⟩
  | some _ => .error ⟨["input_path"], "path_type"⟩

/-- `date` field validation. -/
def checkStartDate : Option ConfigValue → Except ValidationError ConfigDate
  | none => .error ⟨["start_date"], "missing"⟩
  | some (.scalar (.str s)) =>
    match parseDate s with
    | some d => .ok d
    | none => .error ⟨["start_date"], "date_parsing"⟩
  | some _ => .error ⟨["start_date"], "date_type"⟩

/-- `int` field validation (field name passed for the error location). -/
def checkIntField (name : String) : Option ConfigValue → Except ValidationError Int
  | none => .error ⟨[name], "missing"⟩
  | some (.scalar (.int n)) => .ok n
  | some _ => .error ⟨[name], "int_type"⟩

/-- The error contribution of one field result. -/
def errList {α : Type} : Except ValidationError α → List ValidationError
  | .ok _ => []
  | .error e => [e]

/-- `extra="forbid"`: one error per key not declared in the schema. -/
def extraErrs (fields : Fields) (declared : List String) : List ValidationError :=
  (fields.keys.filter (fun k => k ∉ declared)).map (fun k => ⟨[k], "extra_forbidden"⟩)

/-- Validation of a `DataConfig` from an untyped value: all field errors
and extra-field errors are collected together. -/
def validateDataConfig (fs : FileSystem) : ConfigValue → Except (List ValidationError) DataConfig
  | .scalar _ => .error [⟨[], "model_type"⟩]
  | .map fields =>
    match checkDataFormat (fields.lookup "data_format"),
          checkInputPath fs (fields.lookup "input_path"),
          checkStartDate (fields.lookup "start_date"),
          checkIntField "window" (fields.lookup "window"),
          extraErrs fields declaredData with
    | .ok a, .ok b, .ok c, .ok d, [] => .ok ⟨a, b, c, d⟩
    | r1, r2, r3, r4, ex =>
      .error (errList r1 ++ errList r2 ++ errList r3 ++ errList r4 ++ ex)

/-- Validation of a `ModelConfig` from an untyped value. -/
def validateModelConfig : ConfigValue → Except (List ValidationError) ModelConfig
  | .scalar _ => .error [⟨[], "model_type"⟩]
  | .map fields =>
    match checkIntField "num_estimators" (fields.lookup "num_estimators"),
          checkIntField "max_depth" (fields.lookup "max_depth"),
          extraErrs fields declaredModel with
    | .ok a, .ok b, [] => .ok ⟨a, b⟩
    | r1, r2, ex => .error (errList r1 ++ errList r2 ++ ex)

/-- Relocate nested errors under a parent field name. -/
def errsUnder (p : String) (es : List ValidationError) : List ValidationError :=
  es.map (fun e => ⟨p :: e.loc, e.msg⟩)

/-- The `data` field of `ProjectConfig`: present and a valid `DataConfig`. -/
def checkData (fs : FileSystem) : Option ConfigValue → Except (List ValidationError) DataConfig
  | none => .error [⟨["data"], "missing"⟩]
  | some v =>
    match validateDataConfig fs v with
    | .ok c => .ok c
    | .error es => .error (errsUnder "data" es)

/-- The `model` field of `ProjectConfig`: present and a valid `ModelConfig`. -/
def checkModel : Option ConfigValue → Except (List ValidationError) ModelConfig
  | none => .error [⟨["model"], "missing"⟩]
  | some v =>
    match validateModelConfig v with
    | .ok c => .ok c
    | .error es => .error (errsUnder "model" es)

/-- The error contribution of a nested-model field result. -/
def errListL {α : Type} : Except (List ValidationError) α → List ValidationError
  | .ok _ => []
  | .error es => es

/-- `ProjectConfig(**cla)`: validation of the whole resolved tree. -/
def validateProjectConfig (fs : FileSystem) (fields : Fields) : Except (List ValidationError) ProjectConfig :=
  match checkData fs (fields.lookup "data"),
        checkModel (fields.lookup "model"),
        extraErrs fields declaredProject with
  | .ok a, .ok b, [] => .ok ⟨a, b⟩
  | r1, r2, ex => .error (errListL r1 ++ errListL r2 ++ ex)

/-!  `validate_assignment=True`: assigning to a field of a constructed
model re-runs that field's validation; on failure a `ValidationError` is
raised and the model keeps its previous value.  With `extra="forbid"`,
assigning to an undeclared attribute is also an error. -/

/-- Assignment to a field of a validated `DataConfig`: the new model
state together with the raised errors (empty on success). -/
def DataConfig.setField (fs : FileSystem) (c : DataConfig) (name : String) (v : ConfigValue) :
    DataConfig × List ValidationError :=
  if name = "data_format" then
    match checkDataFormat (some v) with
    | .ok s => ({ c with data_format := s }, [])
    | .error e => (c, [e])
  else if name = "input_path" then
    match checkInputPath fs (some v) with
    | .ok p => ({ c with input_path := p }, [])
    | .error e => (c, [e])
  else if name = "start_date" then
    match checkStartDate (some v) with
    | .ok d => ({ c with start_date := d }, [])
    | .error e => (c, [e])
  else if name = "window" then
    match checkIntField "window" (some v) with
    | .ok n => ({ c with window := n }, [])
    | .error e => (c, [e])
  else (c, [⟨[name], "no_such_attribute"⟩])

/-- Assignment to a field of a validated `ModelConfig`. -/
def ModelConfig.setField (c : ModelConfig) (name : String) (v : ConfigValue) :
    ModelConfig × List ValidationError :=
  if name = "num_estimators" then
    match checkIntField "num_estimators" (some v) with
    | .ok n => ({ c with num_estimators := n }, [])
    | .error e => (c, [e])
  else if name = "max_depth" then
    match checkIntField "max_depth" (some v) with
    | .ok n => ({ c with max_depth := n }, [])
    | .error e => (c, [e])
  else (c, [⟨[name], "no_such_attribute"⟩])

/-- Assignment to a field of a validated `ProjectConfig`. -/
def ProjectConfig.setField (fs : FileSystem) (c : ProjectConfig) (name : String) (v : ConfigValue) :
    ProjectConfig × List ValidationError :=
  if name = "data" then
    match validateDataConfig fs v with
    | .ok d => ({ c with data := d }, [])
    | .error es => (c, errsUnder "data" es)
  else if name = "model" then
    match validateModelConfig v with
    | .ok m => ({ c with model := m }, [])
    | .error es => (c, errsUnder "model" es)
  else (c, [⟨[name], "no_such_attribute"⟩])

/-- The semantic constraints a `DataConfig` must satisfy (literal set,
path existence, date validity). -/
def DataConfig.Valid (fs : FileSystem) (c : DataConfig) : Prop :=
  (c.data_format = "DB" ∨ c.data_format = "SAP") ∧
  fs.kind c.input_path ≠ .missing ∧
  validDate c.start_date.year c.start_date.month c.start_date.day = true

instance (fs : FileSystem) (c : DataConfig) : Decidable (c.Valid fs) := by
  unfold DataConfig.Valid; infer_instance

/-!  YAML text model (`OmegaConf.to_yaml` and loader-level re-parsing).
A mapping is emitted as indentation-structured lines; text is a list of
characters, lines are joined with a newline character. -/

def digitChar (n : Nat) : Char := Char.ofNat (48 + n)

def natToChars (n : Nat) : List Char :=
  if h : n < 10 then [digitChar n]
  else natToChars (n / 10) ++ [digitChar (n % 10)]
decreasing_by exact Nat.div_lt_self (by omega) (by omega)

def intToChars : Int → List Char
  | .ofNat n => natToChars n
  | .negSucc m => '-' :: natToChars (m + 1)

def charsToNatAux : List Char → Nat → Option Nat
  | [], acc => some acc
  | c :: cs, acc =>
    match charDigit? c with
    | some d => charsToNatAux cs (acc * 10 + d)
    | none => none

def charsToInt? (cs : List Char) : Option Int :=
  if cs = [] then none
  else if cs.head? = some '-' then
    if cs.tail = [] then none
    else (charsToNatAux cs.tail 0).map (fun n => -(n : Int))
  else (charsToNatAux cs 0).map (fun n => (n : Int))

/-- Escape a double-quoted YAML scalar body: backslash, double quote and
newline are written as two-character escapes. -/
def escapeChars : List Char → List Char
  | [] => []
  | c :: cs =>
    if c = '\\' then '\\' :: '\\' :: escapeChars cs
    else if c = '"' then '\\' :: '"' :: escapeChars cs
    else if c = '\n' then '\\' :: 'n' :: escapeChars cs
    else c :: escapeChars cs

/-- Undo `escapeChars`. -/
def unescapeChars : List Char → List Char
  | [] => []
  | [c] => [c]
  | c :: c2 :: cs =>
    if c = '\\' then (if c2 = 'n' then '\n' else c2) :: unescapeChars cs
    else c :: unescapeChars (c2 :: cs)

/-- A string scalar must be quoted when emitting it bare would be
ambiguous: empty, integer-looking, or containing a newline or quote
(as the quoting YAML dump does). -/
def needsQuote (cs : List Char) : Bool :=
  decide (cs = []) || (charsToInt? cs).isSome || decide ('\n' ∈ cs) || decide ('"' ∈ cs)

/-- The text of a scalar leaf; ambiguous strings are double-quoted. -/
def scalarChars : Scalar → List Char
  | .str s => if needsQuote s.data then '"' :: (escapeChars s.data ++ ['"']) else s.data
  | .int n => intToChars n

/-- Reading a scalar back: integer-looking text loads as an integer,
double-quoted text as the unescaped string, anything else as itself. -/
def parseScalar (cs : List Char) : Scalar :=
  match charsToInt? cs with
  | some n => .int n
  | none =>
    if cs.head? = some '"' ∧ cs.tail ≠ [] ∧ cs.tail.getLast? = some '"' then
      .str (String.mk (unescapeChars cs.tail.dropLast))
    else .str (String.mk cs)

/-- Emit a mapping as YAML lines at indentation `ind`. -/
def emitMap (ind : Nat) : Fields → List (List Char)
  | .nil => []
  | .cons k (.scalar s) rest =>
    (List.replicate ind ' ' ++ k.data ++ ':' :: ' ' :: scalarChars s) :: emitMap ind rest
  | .cons k (.map m) rest =>
    (List.replicate ind ' ' ++ k.data ++ [':']) :: (emitMap (ind + 2) m ++ emitMap ind rest)

/-- The number of lines a mapping emits (at any indentation). -/
def Fields.lineCount : Fields → Nat
  | .nil => 0
  | .cons _ (.scalar _) rest => 1 + rest.lineCount
  | .cons _ (.map m) rest => 1 + m.lineCount + rest.lineCount

def joinLines : List (List Char) → List Char
  | [] => []
  | [l] => l
  | l :: ls => l ++ '\n' :: joinLines ls

def splitNl : List Char → List (List Char)
  | [] => [[]]
  | c :: cs =>
    if c = '\n' then [] :: splitNl cs
    else
      match splitNl cs with
      | [] => [[c]]
      | l :: ls => (c :: l) :: ls

def countLeadingSpaces : List Char → Nat
  | [] => 0
  | c :: cs => if c = ' ' then countLeadingSpaces cs + 1 else 0

/-- Split a line at the first colon-space separator. -/
def splitColonSpace : List Char → Option (List Char × List Char)
  | [] => none
  | c :: rest =>
    if c = ':' ∧ rest.head? = some ' ' then some ([], rest.tail)
    else
      match splitColonSpace rest with
      | some (a, b) => some (c :: a, b)
      | none => none

/-- Parse a block of lines at indentation `ind` into a mapping, returning
the lines following the block.  `fuel` bounds the recursion. -/
def parseLines : Nat → Nat → List (List Char) → Option Fields × List (List Char)
  | 0, _, ls => (none, ls)
  | _ + 1, _, [] => (some .nil, [])
  | fuel + 1, ind, l :: ls =>
    if countLeadingSpaces l < ind then (some .nil, l :: ls)
    else if ind < countLeadingSpaces l then (none, l :: ls)
    else
      match splitColonSpace (l.drop ind) with
      | some (kcs, vcs) =>
        match parseLines fuel ind ls with
        | (some rest, rem) => (some (.cons (String.mk kcs) (.scalar (parseScalar vcs)) rest), rem)
        | (none, rem) => (none, rem)
      | none =>
        if (l.drop ind).getLast? = some ':' then
          match parseLines fuel (ind + 2) ls with
          | (some sub, rem) =>
            match parseLines fuel ind rem with
            | (some rest, rem') => (some (.cons (String.mk (l.drop ind).dropLast) (.map sub) rest), rem')
            | (none, rem') => (none, rem')
          | (none, rem) => (none, rem)
        else (none, l :: ls)

/-- Serialize a resolved tree to YAML text. -/
def toYamlText (m : Fields) : List Char := joinLines (emitMap 0 m)

/-- Re-parse YAML text into a tree. -/
def parseYamlText (cs : List Char) : Option Fields :=
  match parseLines ((splitNl cs).length + 1) 0 (splitNl cs) with
  | (some m, []) => some m
  | _ => none

/-- A key the plain emitter represents unambiguously. -/
def keyWF (k : String) : Bool :=
  decide (k.data ≠ [] ∧ ':' ∉ k.data ∧ '\n' ∉ k.data ∧ k.data.head? ≠ some ' ')

mutual
/-- Textual well-formedness of a configuration value: every key of every
nested mapping is emitter-safe (scalars always are, thanks to quoting). -/
def ConfigValue.WF : ConfigValue → Bool
  | .scalar _ => true
  | .map m => m.WF

/-- Textual well-formedness of a mapping. -/
def Fields.WF : Fields → Bool
  | .nil => true
  | .cons k v rest => keyWF k && v.WF && rest.WF
end

mutual
/-- No mapping in the tree binds the same key twice — true of every
OmegaConf `DictConfig` and of every YAML mapping, which are dicts. -/
def ConfigValue.UniqueKeys : ConfigValue → Bool
  | .scalar _ => true
  | .map m => m.UniqueKeys

/-- Key uniqueness of a mapping and all its nested mappings. -/
def Fields.UniqueKeys : Fields → Bool
  | .nil => true
  | .cons k v rest => !(decide (k ∈ rest.keys)) && v.UniqueKeys && rest.UniqueKeys
end

/-!  Entry point model: `main` resolves interpolations, logs the YAML
dump of the tree, validates it into `ProjectConfig` (raising on
failure), logs the typed record, then emits the four fixed messages. -/

/-- Python `logging` severities with their numeric levels. -/
inductive LogLevel where
  | debug
  | info
  | warning
  | error
  | critical
deriving DecidableEq, Repr

def LogLevel.rank : LogLevel → Nat
  | .debug => 10
  | .info => 20
  | .warning => 30
  | .error => 40
  | .critical => 50

/-- An observable step of `main`. -/
inductive Event where
  | resolve
  | logMsg (lvl : LogLevel) (msg : String)
  | raiseError (errs : List ValidationError)
deriving DecidableEq, Repr

def dateChars (d : ConfigDate) : List Char :=
  natToChars d.year ++ '-' :: natToChars d.month ++ '-' :: natToChars d.day

/-- Rendering of the validated record for the `cla pydantic:` log line. -/
def pyStr (c : ProjectConfig) : String :=
  "data=DataConfig(data_format=" ++ c.data.data_format ++
  ", input_path=" ++ c.data.input_path ++
  ", start_date=" ++ String.mk (dateChars c.data.start_date) ++
  ", window=" ++ String.mk (intToChars c.data.window) ++
  ") model=ModelConfig(num_estimators=" ++ String.mk (intToChars c.model.num_estimators) ++
  ", max_depth=" ++ String.mk (intToChars c.model.max_depth) ++ ")"

/-- The sequence of observable steps `main` performs on a loaded tree. -/
def mainTrace (fs : FileSystem) (cla : Fields) : List Event :=
  Event.resolve ::
  Event.logMsg .info ("Loaded Config:\n" ++ String.mk (toYamlText cla)) ::
  match validateProjectConfig fs cla with
  | .error errs => [Event.raiseError errs]
  | .ok c =>
    [Event.logMsg .info ("cla pydantic: " ++ pyStr c),
     Event.logMsg .critical "I am a Critical Message!",
     Event.logMsg .error "I am an Error Message!",
     Event.logMsg .warning "I am a Warning Message!",
     Event.logMsg .debug "I am a Debug Message."]

/-!  Derived views of the validators used to state the claims. -/

/-- All errors a `DataConfig` validation of a mapping collects. -/
def dataErrsAll (fs : FileSystem) (fields : Fields) : List ValidationError :=
  errList (checkDataFormat (fields.lookup "data_format")) ++
  errList (checkInputPath fs (fields.lookup "input_path")) ++
  errList (checkStartDate (fields.lookup "start_date")) ++
  errList (checkIntField "window" (fields.lookup "window")) ++
  extraErrs fields declaredData

/-- All errors a `ModelConfig` validation of a mapping collects. -/
def modelErrsAll (fields : Fields) : List ValidationError :=
  errList (checkIntField "num_estimators" (fields.lookup "num_estimators")) ++
  errList (checkIntField "max_depth" (fields.lookup "max_depth")) ++
  extraErrs fields declaredModel

/-- All errors a `ProjectConfig` validation collects. -/
def projErrsAll (fs : FileSystem) (fields : Fields) : List ValidationError :=
  errListL (checkData fs (fields.lookup "data")) ++
  errListL (checkModel (fields.lookup "model")) ++
  extraErrs fields declaredProject

/-- The errors one declared `DataConfig` field contributes. -/
def dataFieldErrs (fs : FileSystem) (fields : Fields) : String → List ValidationError
  | "data_format" => errList (checkDataFormat (fields.lookup "data_format"))
  | "input_path" => errList (checkInputPath fs (fields.lookup "input_path"))
  | "start_date" => errList (checkStartDate (fields.lookup "start_date"))
  | "window" => errList (checkIntField "window" (fields.lookup "window"))
  | _ => []

/-- The errors one declared `ModelConfig` field contributes. -/
def modelFieldErrs (fields : Fields) : String → List ValidationError
  | "num_estimators" => errList (checkIntField "num_estimators" (fields.lookup "num_estimators"))
  | "max_depth" => errList (checkIntField "max_depth" (fields.lookup "max_depth"))
  | _ => []

/-- The paths of the six leaf fields of the schema. -/
def fieldPaths : List (List String) :=
  [["data", "data_format"], ["data", "input_path"], ["data", "start_date"], ["data", "window"],
   ["model", "num_estimators"], ["model", "max_depth"]]

/-- The errors one leaf field contributes to whole-tree validation. -/
def projFieldErrs (fs : FileSystem) (pfields : Fields) : List String → List ValidationError
  | ["data", f] =>
    match pfields.lookup "data" with
    | some (.map dfields) => errsUnder "data" (dataFieldErrs fs dfields f)
    | _ => []
  | ["model", f] =>
    match pfields.lookup "model" with
    | some (.map mfields) => errsUnder "model" (modelFieldErrs mfields f)
    | _ => []
  | _ => []

/-!  A concrete filesystem and configuration tree used to instantiate the
theorems below. -/

def exampleFS : FileSystem :=
  ⟨fun s => if s = "/data" then .dir else if s = "/file.csv" then .file else .missing⟩

def exampleDataFields : Fields :=
  .cons "data_format" (.scalar (.str "DB"))
    (.cons "input_path" (.scalar (.str "/data"))
      (.cons "start_date" (.scalar (.str "2024-01-02"))
        (.cons "window" (.scalar (.int 7)) .nil)))

def exampleModelFields : Fields :=
  .cons "num_estimators" (.scalar (.int 100))
    (.cons "max_depth" (.scalar (.int 5)) .nil)

def exampleTree : Fields :=
  .cons "data" (.map exampleDataFields) (.cons "model" (.map exampleModelFields) .nil)

def exampleConfig : ProjectConfig :=
  ⟨⟨"DB", "/data", ⟨2024, 1, 2⟩, 7⟩, ⟨100, 5⟩⟩

/-!  Lemmas about the validators. -/

theorem extraErrs_eq_nil (fields : Fields) (declared : List String)
    (h : ∀ k ∈ fields.keys, k ∈ declared) : extraErrs fields declared = [] := by
  unfold extraErrs
  rw [List.filter_eq_nil_iff.mpr (fun a ha => by simpa using h a ha)]
  rfl

theorem mem_extraErrs (fields : Fields) (declared : List String) (k : String)
    (hk : k ∈ fields.keys) (hnd : k ∉ declared) :
    (⟨[k], "extra_forbidden"⟩ : ValidationError) ∈ extraErrs fields declared := by
  unfold extraErrs
  exact List.mem_map.mpr ⟨k, List.mem_filter.mpr ⟨hk, by simpa using hnd⟩, rfl⟩

theorem validateDataConfig_error_of_ne (fs : FileSystem) (fields : Fields)
    (h : dataErrsAll fs fields ≠ []) :
    validateDataConfig fs (.map fields) = .error (dataErrsAll fs fields) := by
  unfold dataErrsAll at *
  simp only [validateDataConfig]
  split
  · rename_i a b c d heq1 heq2 heq3 heq4 heq5
    exact absurd (by simp [heq1, heq2, heq3, heq4, heq5, errList]) h
  · rfl

theorem validateModelConfig_error_of_ne (fields : Fields)
    (h : modelErrsAll fields ≠ []) :
    validateModelConfig (.map fields) = .error (modelErrsAll fields) := by
  unfold modelErrsAll at *
  simp only [validateModelConfig]
  split
  · rename_i a b heq1 heq2 heq3
    exact absurd (by simp [heq1, heq2, heq3, errList]) h
  · rfl

theorem validateProjectConfig_error_of_ne (fs : FileSystem) (fields : Fields)
    (h : projErrsAll fs fields ≠ []) :
    validateProjectConfig fs fields = .error (projErrsAll fs fields) := by
  unfold projErrsAll at *
  unfold validateProjectConfig
  split
  · rename_i a b heq1 heq2 heq3
    exact absurd (by simp [heq1, heq2, heq3, errListL]) h
  · rfl

theorem validateDataConfig_ok (fs : FileSystem) (fields : Fields)
    (a b : String) (c : ConfigDate) (d : Int)
    (h1 : checkDataFormat (fields.lookup "data_format") = .ok a)
    (h2 : checkInputPath fs (fields.lookup "input_path") = .ok b)
    (h3 : checkStartDate (fields.lookup "start_date") = .ok c)
    (h4 : checkIntField "window" (fields.lookup "window") = .ok d)
    (h5 : extraErrs fields declaredData = []) :
    validateDataConfig fs (.map fields) = .ok ⟨a, b, c, d⟩ := by
  simp only [validateDataConfig]
  rw [h1, h2, h3, h4, h5]

theorem validateModelConfig_ok (fields : Fields) (a b : Int)
    (h1 : checkIntField "num_estimators" (fields.lookup "num_estimators") = .ok a)
    (h2 : checkIntField "max_depth" (fields.lookup "max_depth") = .ok b)
    (h3 : extraErrs fields declaredModel = []) :
    validateModelConfig (.map fields) = .ok ⟨a, b⟩ := by
  simp only [validateModelConfig]
  rw [h1, h2, h3]

theorem validateProjectConfig_ok (fs : FileSystem) (fields : Fields)
    (a : DataConfig) (b : ModelConfig)
    (h1 : checkData fs (fields.lookup "data") = .ok a)
    (h2 : checkModel (fields.lookup "model") = .ok b)
    (h3 : extraErrs fields declaredProject = []) :
    validateProjectConfig fs fields = .ok ⟨a, b⟩ := by
  unfold validateProjectConfig
  rw [h1, h2, h3]

theorem checkDataFormat_ok_of_mem (s : String) (h : s = "DB" ∨ s = "SAP") :
    checkDataFormat (some (.scalar (.str s))) = .ok s := by
  simp only [checkDataFormat]
  rw [if_pos h]

theorem checkDataFormat_error_of_not (v : ConfigValue)
    (h1 : v ≠ .scalar (.str "DB")) (h2 : v ≠ .scalar (.str "SAP")) :
    checkDataFormat (some v) = .error ⟨["data_format"], "literal_error"⟩ := by
  match v with
  | .scalar (.str s) =>
    have hs : ¬(s = "DB" ∨ s = "SAP") := by
      rintro (rfl | rfl)
      · exact h1 rfl
      · exact h2 rfl
    simp only [checkDataFormat]
    rw [if_neg hs]
  | .scalar (.int _) => rfl
  | .map _ => rfl

theorem checkInputPath_ok_of_exists (fs : FileSystem) (p : String)
    (h : fs.kind p ≠ .missing) :
    checkInputPath fs (some (.scalar (.str p))) = .ok p := by
  simp only [checkInputPath]
  cases hk : fs.kind p with
  | dir => rfl
  | file => rfl
  | missing => exact absurd hk h

theorem checkInputPath_error_of_missing (fs : FileSystem) (p : String)
    (h : fs.kind p = .missing) :
    checkInputPath fs (some (.scalar (.str p))) = .error ⟨["input_path"], "path_not_exists"⟩ := by
  simp only [checkInputPath]
  rw [h]

theorem checkStartDate_ok_of_parse (s : String) (d : ConfigDate) (h : parseDate s = some d) :
    checkStartDate (some (.scalar (.str s))) = .ok d := by
  simp only [checkStartDate]
  rw [h]

theorem checkIntField_ok (name : String) (n : Int) :
    checkIntField name (some (.scalar (.int n))) = .ok n := rfl

theorem checkDataFormat_shape (o : Option ConfigValue) :
    (∃ s, checkDataFormat o = .ok s) ∨ ∃ m, checkDataFormat o = .error ⟨["data_format"], m⟩ := by
  match o with
  | none => exact Or.inr ⟨"missing", rfl⟩
  | some (.scalar (.str s)) =>
    by_cases hs : s = "DB" ∨ s = "SAP"
    · exact Or.inl ⟨s, by simp only [checkDataFormat]; rw [if_pos hs]⟩
    · exact Or.inr ⟨"literal_error", by simp only [checkDataFormat]; rw [if_neg hs]⟩
  | some (.scalar (.int n)) => exact Or.inr ⟨"literal_error", rfl⟩
  | some (.map m) => exact Or.inr ⟨"literal_error", rfl⟩

theorem checkInputPath_shape (fs : FileSystem) (o : Option ConfigValue) :
    (∃ p, checkInputPath fs o = .ok p) ∨ ∃ m, checkInputPath fs o = .error ⟨["input_path"], m⟩ := by
  match o with
  | none => exact Or.inr ⟨"missing", rfl⟩
  | some (.scalar (.str p)) =>
    cases hk : fs.kind p with
    | dir => exact Or.inl ⟨p, by simp only [checkInputPath]; rw [hk]⟩
    | file => exact Or.inl ⟨p, by simp only [checkInputPath]; rw [hk]⟩
    | missing => exact Or.inr ⟨"path_not_exists", by simp only [checkInputPath]; rw [hk]⟩
  | some (.scalar (.int n)) => exact Or.inr ⟨"path_type", rfl⟩
  | some (.map m) => exact Or.inr ⟨"path_type", rfl⟩

theorem checkStartDate_shape (o : Option ConfigValue) :
    (∃ d, checkStartDate o = .ok d) ∨ ∃ m, checkStartDate o = .error ⟨["start_date"], m⟩ := by
  match o with
  | none => exact Or.inr ⟨"missing", rfl⟩
  | some (.scalar (.str s)) =>
    cases hp : parseDate s with
    | some d => exact Or.inl ⟨d, by simp only [checkStartDate]; rw [hp]⟩
    | none => exact Or.inr ⟨"date_parsing", by simp only [checkStartDate]; rw [hp]⟩
  | some (.scalar (.int n)) => exact Or.inr ⟨"date_type", rfl⟩
  | some (.map m) => exact Or.inr ⟨"date_type", rfl⟩

theorem checkIntField_shape (name : String) (o : Option ConfigValue) :
    (∃ n, checkIntField name o = .ok n) ∨ ∃ m, checkIntField name o = .error ⟨[name], m⟩ := by
  match o with
  | none => exact Or.inr ⟨"missing", rfl⟩
  | some (.scalar (.str s)) => exact Or.inr ⟨"int_type", rfl⟩
  | some (.scalar (.int n)) => exact Or.inl ⟨n, rfl⟩
  | some (.map m) => exact Or.inr ⟨"int_type", rfl⟩

theorem checkDataFormat_loc (o : Option ConfigValue) (e : ValidationError)
    (h : e ∈ errList (checkDataFormat o)) : e.loc = ["data_format"] := by
  rcases checkDataFormat_shape o with ⟨s, hs⟩ | ⟨m, hm⟩
  · rw [hs] at h
    simp [errList] at h
  · rw [hm] at h
    simp [errList] at h
    rw [h]

theorem checkInputPath_loc (fs : FileSystem) (o : Option ConfigValue) (e : ValidationError)
    (h : e ∈ errList (checkInputPath fs o)) : e.loc = ["input_path"] := by
  rcases checkInputPath_shape fs o with ⟨p, hp⟩ | ⟨m, hm⟩
  · rw [hp] at h
    simp [errList] at h
  · rw [hm] at h
    simp [errList] at h
    rw [h]

theorem checkStartDate_loc (o : Option ConfigValue) (e : ValidationError)
    (h : e ∈ errList (checkStartDate o)) : e.loc = ["start_date"] := by
  rcases checkStartDate_shape o with ⟨d, hd⟩ | ⟨m, hm⟩
  · rw [hd] at h
    simp [errList] at h
  · rw [hm] at h
    simp [errList] at h
    rw [h]

theorem checkIntField_loc (name : String) (o : Option ConfigValue) (e : ValidationError)
    (h : e ∈ errList (checkIntField name o)) : e.loc = [name] := by
  rcases checkIntField_shape name o with ⟨n, hn⟩ | ⟨m, hm⟩
  · rw [hn] at h
    simp [errList] at h
  · rw [hm] at h
    simp [errList] at h
    rw [h]

theorem errListL_checkData (fs : FileSystem) (pfields dfields : Fields)
    (hd : pfields.lookup "data" = some (.map dfields))
    (hne : dataErrsAll fs dfields ≠ []) :
    errListL (checkData fs (pfields.lookup "data")) = errsUnder "data" (dataErrsAll fs dfields) := by
  rw [hd]
  simp only [checkData]
  rw [validateDataConfig_error_of_ne fs dfields hne]
  rfl

theorem errListL_checkModel (pfields mfields : Fields)
    (hm : pfields.lookup "model" = some (.map mfields))
    (hne : modelErrsAll mfields ≠ []) :
    errListL (checkModel (pfields.lookup "model")) = errsUnder "model" (modelErrsAll mfields) := by
  rw [hm]
  simp only [checkModel]
  rw [validateModelConfig_error_of_ne mfields hne]
  rfl

theorem mem_projErrsAll_data (fs : FileSystem) (pfields dfields : Fields) (e : ValidationError)
    (hd : pfields.lookup "data" = some (.map dfields))
    (he : e ∈ dataErrsAll fs dfields) :
    (⟨"data" :: e.loc, e.msg⟩ : ValidationError) ∈ projErrsAll fs pfields := by
  unfold projErrsAll
  rw [errListL_checkData fs pfields dfields hd (List.ne_nil_of_mem he)]
  exact List.mem_append.mpr (Or.inl (List.mem_append.mpr (Or.inl (List.mem_map.mpr ⟨e, he, rfl⟩))))

theorem mem_projErrsAll_model (fs : FileSystem) (pfields mfields : Fields) (e : ValidationError)
    (hm : pfields.lookup "model" = some (.map mfields))
    (he : e ∈ modelErrsAll mfields) :
    (⟨"model" :: e.loc, e.msg⟩ : ValidationError) ∈ projErrsAll fs pfields := by
  unfold projErrsAll
  rw [errListL_checkModel pfields mfields hm (List.ne_nil_of_mem he)]
  exact List.mem_append.mpr (Or.inl (List.mem_append.mpr (Or.inr (List.mem_map.mpr ⟨e, he, rfl⟩))))

theorem mem_projErrsAll_extra (fs : FileSystem) (pfields : Fields) (k : String)
    (hk : k ∈ pfields.keys) (hnd : k ∉ declaredProject) :
    (⟨[k], "extra_forbidden"⟩ : ValidationError) ∈ projErrsAll fs pfields := by
  unfold projErrsAll
  exact List.mem_append.mpr (Or.inr (mem_extraErrs _ _ _ hk hnd))

theorem mem_projErrsAll_data_missing (fs : FileSystem) (pfields : Fields)
    (hd : pfields.lookup "data" = none) :
    (⟨["data"], "missing"⟩ : ValidationError) ∈ projErrsAll fs pfields := by
  unfold projErrsAll
  rw [hd]
  exact List.mem_append.mpr (Or.inl (List.mem_append.mpr (Or.inl (by simp [checkData, errListL]))))

theorem mem_projErrsAll_model_missing (fs : FileSystem) (pfields : Fields)
    (hm : pfields.lookup "model" = none) :
    (⟨["model"], "missing"⟩ : ValidationError) ∈ projErrsAll fs pfields := by
  unfold projErrsAll
  rw [hm]
  exact List.mem_append.mpr (Or.inl (List.mem_append.mpr (Or.inr (by simp [checkModel, errListL]))))

theorem mem_dataErrsAll_extra (fs : FileSystem) (dfields : Fields) (k : String)
    (hk : k ∈ dfields.keys) (hnd : k ∉ declaredData) :
    (⟨[k], "extra_forbidden"⟩ : ValidationError) ∈ dataErrsAll fs dfields := by
  unfold dataErrsAll
  exact List.mem_append.mpr (Or.inr (mem_extraErrs _ _ _ hk hnd))

theorem mem_modelErrsAll_extra (mfields : Fields) (k : String)
    (hk : k ∈ mfields.keys) (hnd : k ∉ declaredModel) :
    (⟨[k], "extra_forbidden"⟩ : ValidationError) ∈ modelErrsAll mfields := by
  unfold modelErrsAll
  exact List.mem_append.mpr (Or.inr (mem_extraErrs _ _ _ hk hnd))

theorem dataFieldErrs_subset (fs : FileSystem) (dfields : Fields) (f : String) (e : ValidationError)
    (hf : f ∈ declaredData) (he : e ∈ dataFieldErrs fs dfields f) :
    e ∈ dataErrsAll fs dfields := by
  unfold dataErrsAll
  simp only [declaredData, List.mem_cons, List.not_mem_nil, or_false] at hf
  rcases hf with rfl | rfl | rfl | rfl
  · exact List.mem_append.mpr (Or.inl (List.mem_append.mpr (Or.inl (List.mem_append.mpr
      (Or.inl (List.mem_append.mpr (Or.inl he)))))))
  · exact List.mem_append.mpr (Or.inl (List.mem_append.mpr (Or.inl (List.mem_append.mpr
      (Or.inl (List.mem_append.mpr (Or.inr he)))))))
  · exact List.mem_append.mpr (Or.inl (List.mem_append.mpr (Or.inl (List.mem_append.mpr (Or.inr he)))))
  · exact List.mem_append.mpr (Or.inl (List.mem_append.mpr (Or.inr he)))

theorem modelFieldErrs_subset (mfields : Fields) (f : String) (e : ValidationError)
    (hf : f ∈ declaredModel) (he : e ∈ modelFieldErrs mfields f) :
    e ∈ modelErrsAll mfields := by
  unfold modelErrsAll
  simp only [declaredModel, List.mem_cons, List.not_mem_nil, or_false] at hf
  rcases hf with rfl | rfl
  · exact List.mem_append.mpr (Or.inl (List.mem_append.mpr (Or.inl he)))
  · exact List.mem_append.mpr (Or.inl (List.mem_append.mpr (Or.inr he)))

theorem dataFieldErrs_loc (fs : FileSystem) (dfields : Fields) (f : String) (e : ValidationError)
    (hf : f ∈ declaredData) (he : e ∈ dataFieldErrs fs dfields f) :
    e.loc = [f] := by
  simp only [declaredData, List.mem_cons, List.not_mem_nil, or_false] at hf
  rcases hf with rfl | rfl | rfl | rfl
  · exact checkDataFormat_loc _ _ he
  · exact checkInputPath_loc _ _ _ he
  · exact checkStartDate_loc _ _ he
  · exact checkIntField_loc _ _ _ he

theorem modelFieldErrs_loc (mfields : Fields) (f : String) (e : ValidationError)
    (hf : f ∈ declaredModel) (he : e ∈ modelFieldErrs mfields f) :
    e.loc = [f] := by
  simp only [declaredModel, List.mem_cons, List.not_mem_nil, or_false] at hf
  rcases hf with rfl | rfl
  · exact checkIntField_loc _ _ _ he
  · exact checkIntField_loc _ _ _ he

theorem mem_projFieldErrs_data (fs : FileSystem) (pfields : Fields) (f : String)
    (e : ValidationError) (he : e ∈ projFieldErrs fs pfields ["data", f]) :
    ∃ dfields, pfields.lookup "data" = some (.map dfields) ∧
      e ∈ errsUnder "data" (dataFieldErrs fs dfields f) := by
  unfold projFieldErrs at he
  cases hdl : pfields.lookup "data" with
  | none => rw [hdl] at he; simp at he
  | some v =>
    cases v with
    | scalar s => rw [hdl] at he; simp at he
    | map dfields =>
      rw [hdl] at he
      exact ⟨dfields, rfl, he⟩

theorem mem_projFieldErrs_model (fs : FileSystem) (pfields : Fields) (f : String)
    (e : ValidationError) (he : e ∈ projFieldErrs fs pfields ["model", f]) :
    ∃ mfields, pfields.lookup "model" = some (.map mfields) ∧
      e ∈ errsUnder "model" (modelFieldErrs mfields f) := by
  unfold projFieldErrs at he
  cases hml : pfields.lookup "model" with
  | none => rw [hml] at he; simp at he
  | some v =>
    cases v with
    | scalar s => rw [hml] at he; simp at he
    | map mfields =>
      rw [hml] at he
      exact ⟨mfields, rfl, he⟩

theorem mem_projErrsAll_of_mem_projFieldErrs (fs : FileSystem) (pfields : Fields)
    (r : List String) (e : ValidationError) (hr : r ∈ fieldPaths)
    (he : e ∈ projFieldErrs fs pfields r) :
    e ∈ projErrsAll fs pfields ∧ e.loc = r := by
  have hdata : ∀ f, f ∈ declaredData → e ∈ projFieldErrs fs pfields ["data", f] →
      e ∈ projErrsAll fs pfields ∧ e.loc = ["data", f] := by
    intro f hf hmem
    obtain ⟨dfields, hdl, hu⟩ := mem_projFieldErrs_data fs pfields f e hmem
    obtain ⟨e0, he0, rfl⟩ := List.mem_map.mp hu
    refine ⟨mem_projErrsAll_data fs pfields dfields e0 hdl (dataFieldErrs_subset fs dfields f e0 hf he0), ?_⟩
    simp [dataFieldErrs_loc fs dfields f e0 hf he0]
  have hmodel : ∀ f, f ∈ declaredModel → e ∈ projFieldErrs fs pfields ["model", f] →
      e ∈ projErrsAll fs pfields ∧ e.loc = ["model", f] := by
    intro f hf hmem
    obtain ⟨mfields, hml, hu⟩ := mem_projFieldErrs_model fs pfields f e hmem
    obtain ⟨e0, he0, rfl⟩ := List.mem_map.mp hu
    refine ⟨mem_projErrsAll_model fs pfields mfields e0 hml (modelFieldErrs_subset mfields f e0 hf he0), ?_⟩
    simp [modelFieldErrs_loc mfields f e0 hf he0]
  simp only [fieldPaths, List.mem_cons, List.not_mem_nil, or_false] at hr
  rcases hr with rfl | rfl | rfl | rfl | rfl | rfl
  · exact hdata "data_format" (by simp [declaredData]) he
  · exact hdata "input_path" (by simp [declaredData]) he
  · exact hdata "start_date" (by simp [declaredData]) he
  · exact hdata "window" (by simp [declaredData]) he
  · exact hmodel "num_estimators" (by simp [declaredModel]) he
  · exact hmodel "max_depth" (by simp [declaredModel]) he

/-- C1: a configuration tree carrying exactly the declared fields of
`ProjectConfig`, each correctly typed and satisfying its constraints,
validates successfully into a record whose fields are, field for field,
the input values. -/
theorem C1_valid_tree_validates (fs : FileSystem) (pfields dfields mfields : Fields)
    (df ip sd : String) (dt : ConfigDate) (w nEst mDep : Int)
    (hdf : dfields.lookup "data_format" = some (.scalar (.str df)))
    (hdfv : df = "DB" ∨ df = "SAP")
    (hip : dfields.lookup "input_path" = some (.scalar (.str ip)))
    (hipv : fs.kind ip ≠ .missing)
    (hsd : dfields.lookup "start_date" = some (.scalar (.str sd)))
    (hsdv : parseDate sd = some dt)
    (hw : dfields.lookup "window" = some (.scalar (.int w)))
    (hdk : ∀ k ∈ dfields.keys, k ∈ declaredData)
    (hnum : mfields.lookup "num_estimators" = some (.scalar (.int nEst)))
    (hmax : mfields.lookup "max_depth" = some (.scalar (.int mDep)))
    (hmk : ∀ k ∈ mfields.keys, k ∈ declaredModel)
    (hd : pfields.lookup "data" = some (.map dfields))
    (hm : pfields.lookup "model" = some (.map mfields))
    (hpk : ∀ k ∈ pfields.keys, k ∈ declaredProject) :
    validateProjectConfig fs pfields = .ok ⟨⟨df, ip, dt, w⟩, ⟨nEst, mDep⟩⟩ := by
  have hdc : validateDataConfig fs (.map dfields) = .ok ⟨df, ip, dt, w⟩ := by
    apply validateDataConfig_ok
    · rw [hdf]
      exact checkDataFormat_ok_of_mem df hdfv
    · rw [hip]
      exact checkInputPath_ok_of_exists fs ip hipv
    · rw [hsd]
      exact checkStartDate_ok_of_parse sd dt hsdv
    · rw [hw]
      exact checkIntField_ok _ w
    · exact extraErrs_eq_nil _ _ hdk
  have hmc : validateModelConfig (.map mfields) = .ok ⟨nEst, mDep⟩ := by
    apply validateModelConfig_ok
    · rw [hnum]
      exact checkIntField_ok _ _
    · rw [hmax]
      exact checkIntField_ok _ _
    · exact extraErrs_eq_nil _ _ hmk
  apply validateProjectConfig_ok
  · rw [hd]
    simp only [checkData]
    rw [hdc]
  · rw [hm]
    simp only [checkModel]
    rw [hmc]
  · exact extraErrs_eq_nil _ _ hpk

/-- C1 witness: the theorem instantiated on a concrete tree. -/
theorem C1_valid_tree_validates_witness :
    validateProjectConfig exampleFS exampleTree = .ok exampleConfig :=
  C1_valid_tree_validates exampleFS exampleTree exampleDataFields exampleModelFields
    "DB" "/data" "2024-01-02" ⟨2024, 1, 2⟩ 7 100 5
    (by decide) (by decide) (by decide) (by decide) (by decide) (by decide) (by decide)
    (by decide) (by decide) (by decide) (by decide) (by decide) (by decide) (by decide)

theorem dataFieldErrs_missing (fs : FileSystem) (dfields : Fields) (f : String)
    (hf : f ∈ declaredData) (hl : dfields.lookup f = none) :
    (⟨[f], "missing"⟩ : ValidationError) ∈ dataFieldErrs fs dfields f := by
  simp only [declaredData, List.mem_cons, List.not_mem_nil, or_false] at hf
  rcases hf with rfl | rfl | rfl | rfl
  · show _ ∈ errList (checkDataFormat (dfields.lookup "data_format"))
    rw [hl]
    simp [checkDataFormat, errList]
  · show _ ∈ errList (checkInputPath fs (dfields.lookup "input_path"))
    rw [hl]
    simp [checkInputPath, errList]
  · show _ ∈ errList (checkStartDate (dfields.lookup "start_date"))
    rw [hl]
    simp [checkStartDate, errList]
  · show _ ∈ errList (checkIntField "window" (dfields.lookup "window"))
    rw [hl]
    simp [checkIntField, errList]

theorem modelFieldErrs_missing (mfields : Fields) (f : String)
    (hf : f ∈ declaredModel) (hl : mfields.lookup f = none) :
    (⟨[f], "missing"⟩ : ValidationError) ∈ modelFieldErrs mfields f := by
  simp only [declaredModel, List.mem_cons, List.not_mem_nil, or_false] at hf
  rcases hf with rfl | rfl
  · show _ ∈ errList (checkIntField "num_estimators" (mfields.lookup "num_estimators"))
    rw [hl]
    simp [checkIntField, errList]
  · show _ ∈ errList (checkIntField "max_depth" (mfields.lookup "max_depth"))
    rw [hl]
    simp [checkIntField, errList]

/-- C2: whenever a tree has two (or more) distinct field-level constraint
violations, validation fails with a single structured failure in which
every offending field appears, with its path and the constraint violated
— not only the first violation encountered. -/
theorem C2_all_violations_reported (fs : FileSystem) (pfields : Fields) (p q : List String)
    (hp : p ∈ fieldPaths) (hq : q ∈ fieldPaths) (hpq : p ≠ q)
    (hpe : projFieldErrs fs pfields p ≠ []) (hqe : projFieldErrs fs pfields q ≠ []) :
    ∃ errs, validateProjectConfig fs pfields = .error errs ∧
      ∀ r ∈ fieldPaths, ∀ e ∈ projFieldErrs fs pfields r, e ∈ errs ∧ e.loc = r := by
  have main : ∀ r ∈ fieldPaths, ∀ e ∈ projFieldErrs fs pfields r,
      e ∈ projErrsAll fs pfields ∧ e.loc = r :=
    fun r hr e he => mem_projErrsAll_of_mem_projFieldErrs fs pfields r e hr he
  have hne : projErrsAll fs pfields ≠ [] := by
    obtain ⟨e, he⟩ := List.exists_mem_of_ne_nil _ hpe
    exact List.ne_nil_of_mem (main p hp e he).1
  exact ⟨_, validateProjectConfig_error_of_ne fs pfields hne, main⟩

/-- C3: omitting any required field of `DataConfig`, `ModelConfig` or
`ProjectConfig` makes validation fail, and the reported failure names the
missing field. -/
theorem C3_missing_field_fails (fs : FileSystem) :
    (∀ pfields dfields f, Fields.lookup pfields "data" = some (.map dfields) →
      f ∈ declaredData → Fields.lookup dfields f = none →
      ∃ errs, validateProjectConfig fs pfields = .error errs ∧
        (⟨["data", f], "missing"⟩ : ValidationError) ∈ errs) ∧
    (∀ pfields mfields f, Fields.lookup pfields "model" = some (.map mfields) →
      f ∈ declaredModel → Fields.lookup mfields f = none →
      ∃ errs, validateProjectConfig fs pfields = .error errs ∧
        (⟨["model", f], "missing"⟩ : ValidationError) ∈ errs) ∧
    (∀ pfields f, f ∈ declaredProject → Fields.lookup pfields f = none →
      ∃ errs, validateProjectConfig fs pfields = .error errs ∧
        (⟨[f], "missing"⟩ : ValidationError) ∈ errs) := by
  refine ⟨?_, ?_, ?_⟩
  · intro pfields dfields f hdl hf hl
    have h0 := dataFieldErrs_missing fs dfields f hf hl
    have h1 := dataFieldErrs_subset fs dfields f _ hf h0
    have h2 := mem_projErrsAll_data fs pfields dfields _ hdl h1
    exact ⟨_, validateProjectConfig_error_of_ne fs pfields (List.ne_nil_of_mem h2), h2⟩
  · intro pfields mfields f hml hf hl
    have h0 := modelFieldErrs_missing mfields f hf hl
    have h1 := modelFieldErrs_subset mfields f _ hf h0
    have h2 := mem_projErrsAll_model fs pfields mfields _ hml h1
    exact ⟨_, validateProjectConfig_error_of_ne fs pfields (List.ne_nil_of_mem h2), h2⟩
  · intro pfields f hf hl
    simp only [declaredProject, List.mem_cons, List.not_mem_nil, or_false] at hf
    rcases hf with rfl | rfl
    · have h2 := mem_projErrsAll_data_missing fs pfields hl
      exact ⟨_, validateProjectConfig_error_of_ne fs pfields (List.ne_nil_of_mem h2), h2⟩
    · have h2 := mem_projErrsAll_model_missing fs pfields hl
      exact ⟨_, validateProjectConfig_error_of_ne fs pfields (List.ne_nil_of_mem h2), h2⟩

/-- C4: a field not declared in the schema, at any nesting level (top
level, under `data`, or under `model`), makes validation fail with an
extra-field error for that key. -/
theorem C4_extra_field_fails (fs : FileSystem) :
    (∀ pfields k, k ∈ Fields.keys pfields → k ∉ declaredProject →
      ∃ errs, validateProjectConfig fs pfields = .error errs ∧
        (⟨[k], "extra_forbidden"⟩ : ValidationError) ∈ errs) ∧
    (∀ pfields dfields k, Fields.lookup pfields "data" = some (.map dfields) →
      k ∈ Fields.keys dfields → k ∉ declaredData →
      ∃ errs, validateProjectConfig fs pfields = .error errs ∧
        (⟨["data", k], "extra_forbidden"⟩ : ValidationError) ∈ errs) ∧
    (∀ pfields mfields k, Fields.lookup pfields "model" = some (.map mfields) →
      k ∈ Fields.keys mfields → k ∉ declaredModel →
      ∃ errs, validateProjectConfig fs pfields = .error errs ∧
        (⟨["model", k], "extra_forbidden"⟩ : ValidationError) ∈ errs) := by
  refine ⟨?_, ?_, ?_⟩
  · intro pfields k hk hnd
    have h2 := mem_projErrsAll_extra fs pfields k hk hnd
    exact ⟨_, validateProjectConfig_error_of_ne fs pfields (List.ne_nil_of_mem h2), h2⟩
  · intro pfields dfields k hdl hk hnd
    have h1 := mem_dataErrsAll_extra fs dfields k hk hnd
    have h2 := mem_projErrsAll_data fs pfields dfields _ hdl h1
    exact ⟨_, validateProjectConfig_error_of_ne fs pfields (List.ne_nil_of_mem h2), h2⟩
  · intro pfields mfields k hml hk hnd
    have h1 := mem_modelErrsAll_extra mfields k hk hnd
    have h2 := mem_projErrsAll_model fs pfields mfields _ hml h1
    exact ⟨_, validateProjectConfig_error_of_ne fs pfields (List.ne_nil_of_mem h2), h2⟩

def dataFieldsBadTwo : Fields :=
  .cons "data_format" (.scalar (.str "CSV"))
    (.cons "input_path" (.scalar (.str "/data"))
      (.cons "start_date" (.scalar (.str "2024-01-02"))
        (.cons "window" (.scalar (.str "soon")) .nil)))

def treeBadTwo : Fields :=
  .cons "data" (.map dataFieldsBadTwo) (.cons "model" (.map exampleModelFields) .nil)

def dataFieldsNoWindow : Fields :=
  .cons "data_format" (.scalar (.str "DB"))
    (.cons "input_path" (.scalar (.str "/data"))
      (.cons "start_date" (.scalar (.str "2024-01-02")) .nil))

def treeNoWindow : Fields :=
  .cons "data" (.map dataFieldsNoWindow) (.cons "model" (.map exampleModelFields) .nil)

def modelFieldsNoDepth : Fields := .cons "num_estimators" (.scalar (.int 100)) .nil

def treeNoMaxDepth : Fields :=
  .cons "data" (.map exampleDataFields) (.cons "model" (.map modelFieldsNoDepth) .nil)

def treeNoModel : Fields := .cons "data" (.map exampleDataFields) .nil

def treeTopExtra : Fields :=
  .cons "data" (.map exampleDataFields)
    (.cons "model" (.map exampleModelFields)
      (.cons "notes" (.scalar (.str "hi")) .nil))

def dataFieldsExtra : Fields := .cons "fmt" (.scalar (.str "x")) exampleDataFields

def treeDataExtra : Fields :=
  .cons "data" (.map dataFieldsExtra) (.cons "model" (.map exampleModelFields) .nil)

def modelFieldsExtra : Fields := .cons "depth" (.scalar (.int 3)) exampleModelFields

def treeModelExtra : Fields :=
  .cons "data" (.map exampleDataFields) (.cons "model" (.map modelFieldsExtra) .nil)

/-- C2 witness: a tree with a `data_format` violation and a `window`
violation reports both, each under its own path. -/
theorem C2_all_violations_reported_witness :
    ∃ errs, validateProjectConfig exampleFS treeBadTwo = .error errs ∧
      ∀ r ∈ fieldPaths, ∀ e ∈ projFieldErrs exampleFS treeBadTwo r, e ∈ errs ∧ e.loc = r :=
  C2_all_violations_reported exampleFS treeBadTwo ["data", "data_format"] ["data", "window"]
    (by decide) (by decide) (by decide) (by decide) (by decide)

/-- C3 witness: dropping `window`, `max_depth` or the whole `model`
section each yields a failure naming the missing field. -/
theorem C3_missing_field_fails_witness :
    (∃ errs, validateProjectConfig exampleFS treeNoWindow = .error errs ∧
      (⟨["data", "window"], "missing"⟩ : ValidationError) ∈ errs) ∧
    (∃ errs, validateProjectConfig exampleFS treeNoMaxDepth = .error errs ∧
      (⟨["model", "max_depth"], "missing"⟩ : ValidationError) ∈ errs) ∧
    (∃ errs, validateProjectConfig exampleFS treeNoModel = .error errs ∧
      (⟨["model"], "missing"⟩ : ValidationError) ∈ errs) :=
  ⟨(C3_missing_field_fails exampleFS).1 treeNoWindow dataFieldsNoWindow "window"
      (by decide) (by decide) (by decide),
   (C3_missing_field_fails exampleFS).2.1 treeNoMaxDepth modelFieldsNoDepth "max_depth"
      (by decide) (by decide) (by decide),
   (C3_missing_field_fails exampleFS).2.2 treeNoModel "model" (by decide) (by decide)⟩

/-- C4 witness: an undeclared key at the top level, under `data`, and
under `model` each yields an extra-field failure. -/
theorem C4_extra_field_fails_witness :
    (∃ errs, validateProjectConfig exampleFS treeTopExtra = .error errs ∧
      (⟨["notes"], "extra_forbidden"⟩ : ValidationError) ∈ errs) ∧
    (∃ errs, validateProjectConfig exampleFS treeDataExtra = .error errs ∧
      (⟨["data", "fmt"], "extra_forbidden"⟩ : ValidationError) ∈ errs) ∧
    (∃ errs, validateProjectConfig exampleFS treeModelExtra = .error errs ∧
      (⟨["model", "depth"], "extra_forbidden"⟩ : ValidationError) ∈ errs) :=
  ⟨(C4_extra_field_fails exampleFS).1 treeTopExtra "notes" (by decide) (by decide),
   (C4_extra_field_fails exampleFS).2.1 treeDataExtra dataFieldsExtra "fmt"
      (by decide) (by decide) (by decide),
   (C4_extra_field_fails exampleFS).2.2 treeModelExtra modelFieldsExtra "depth"
      (by decide) (by decide) (by decide)⟩

/-- C5: a `data.data_format` value outside the literal set {"DB", "SAP"}
makes validation fail identifying `data_format`; the two member values
themselves pass the field's validation with no further constraint. -/
theorem C5_data_format_literal (fs : FileSystem) :
    (∀ pfields dfields v, Fields.lookup pfields "data" = some (.map dfields) →
      Fields.lookup dfields "data_format" = some v →
      v ≠ .scalar (.str "DB") → v ≠ .scalar (.str "SAP") →
      ∃ errs, validateProjectConfig fs pfields = .error errs ∧
        (⟨["data", "data_format"], "literal_error"⟩ : ValidationError) ∈ errs) ∧
    (∀ s, s = "DB" ∨ s = "SAP" → checkDataFormat (some (.scalar (.str s))) = .ok s) := by
  refine ⟨?_, checkDataFormat_ok_of_mem⟩
  intro pfields dfields v hdl hl h1 h2
  have h0 : (⟨["data_format"], "literal_error"⟩ : ValidationError) ∈
      dataFieldErrs fs dfields "data_format" := by
    show _ ∈ errList (checkDataFormat (dfields.lookup "data_format"))
    rw [hl, checkDataFormat_error_of_not v h1 h2]
    simp [errList]
  have hsub := dataFieldErrs_subset fs dfields "data_format" _ (by simp [declaredData]) h0
  have h3 := mem_projErrsAll_data fs pfields dfields _ hdl hsub
  exact ⟨_, validateProjectConfig_error_of_ne fs pfields (List.ne_nil_of_mem h3), h3⟩

/-- C5 witness: `data_format = "CSV"` is rejected with a `data_format`
error; `"DB"` and `"SAP"` pass the field validator. -/
theorem C5_data_format_literal_witness :
    (∃ errs, validateProjectConfig exampleFS treeBadTwo = .error errs ∧
      (⟨["data", "data_format"], "literal_error"⟩ : ValidationError) ∈ errs) ∧
    checkDataFormat (some (.scalar (.str "DB"))) = .ok "DB" ∧
    checkDataFormat (some (.scalar (.str "SAP"))) = .ok "SAP" :=
  ⟨(C5_data_format_literal exampleFS).1 treeBadTwo dataFieldsBadTwo (.scalar (.str "CSV"))
      (by decide) (by decide) (by decide) (by decide),
   (C5_data_format_literal exampleFS).2 "DB" (Or.inl rfl),
   (C5_data_format_literal exampleFS).2 "SAP" (Or.inr rfl)⟩

/-- C6: a `data.input_path` naming a filesystem location that does not
exist makes validation fail identifying `input_path`; an existing
directory or file satisfies the path constraint. -/
theorem C6_input_path_exists (fs : FileSystem) :
    (∀ pfields dfields p, Fields.lookup pfields "data" = some (.map dfields) →
      Fields.lookup dfields "input_path" = some (.scalar (.str p)) →
      fs.kind p = .missing →
      ∃ errs, validateProjectConfig fs pfields = .error errs ∧
        (⟨["data", "input_path"], "path_not_exists"⟩ : ValidationError) ∈ errs) ∧
    (∀ p, fs.kind p ≠ .missing → checkInputPath fs (some (.scalar (.str p))) = .ok p) := by
  refine ⟨?_, checkInputPath_ok_of_exists fs⟩
  intro pfields dfields p hdl hl hmiss
  have h0 : (⟨["input_path"], "path_not_exists"⟩ : ValidationError) ∈
      dataFieldErrs fs dfields "input_path" := by
    show _ ∈ errList (checkInputPath fs (dfields.lookup "input_path"))
    rw [hl, checkInputPath_error_of_missing fs p hmiss]
    simp [errList]
  have hsub := dataFieldErrs_subset fs dfields "input_path" _ (by simp [declaredData]) h0
  have h3 := mem_projErrsAll_data fs pfields dfields _ hdl hsub
  exact ⟨_, validateProjectConfig_error_of_ne fs pfields (List.ne_nil_of_mem h3), h3⟩

def dataFieldsBadPath : Fields :=
  .cons "data_format" (.scalar (.str "DB"))
    (.cons "input_path" (.scalar (.str "/nowhere"))
      (.cons "start_date" (.scalar (.str "2024-01-02"))
        (.cons "window" (.scalar (.int 7)) .nil)))

def treeBadPath : Fields :=
  .cons "data" (.map dataFieldsBadPath) (.cons "model" (.map exampleModelFields) .nil)

/-- C6 witness: a nonexistent `input_path` is rejected with an
`input_path` error; an existing directory and an existing file pass. -/
theorem C6_input_path_exists_witness :
    (∃ errs, validateProjectConfig exampleFS treeBadPath = .error errs ∧
      (⟨["data", "input_path"], "path_not_exists"⟩ : ValidationError) ∈ errs) ∧
    checkInputPath exampleFS (some (.scalar (.str "/data"))) = .ok "/data" ∧
    checkInputPath exampleFS (some (.scalar (.str "/file.csv"))) = .ok "/file.csv" :=
  ⟨(C6_input_path_exists exampleFS).1 treeBadPath dataFieldsBadPath "/nowhere"
      (by decide) (by decide) (by decide),
   (C6_input_path_exists exampleFS).2 "/data" (by decide),
   (C6_input_path_exists exampleFS).2 "/file.csv" (by decide)⟩

theorem checkDataFormat_ok_inv (v : ConfigValue) (s : String)
    (h : checkDataFormat (some v) = .ok s) :
    v = .scalar (.str s) ∧ (s = "DB" ∨ s = "SAP") := by
  match v with
  | .scalar (.str t) =>
    simp only [checkDataFormat] at h
    split at h
    · rename_i hcond
      cases h
      exact ⟨rfl, hcond⟩
    · cases h
  | .scalar (.int n) => cases h
  | .map m => cases h

theorem checkInputPath_ok_inv (fs : FileSystem) (v : ConfigValue) (p : String)
    (h : checkInputPath fs (some v) = .ok p) :
    v = .scalar (.str p) ∧ fs.kind p ≠ .missing := by
  match v with
  | .scalar (.str q) =>
    simp only [checkInputPath] at h
    cases hk : fs.kind q with
    | dir =>
      rw [hk] at h
      cases h
      exact ⟨rfl, by rw [hk]; simp⟩
    | file =>
      rw [hk] at h
      cases h
      exact ⟨rfl, by rw [hk]; simp⟩
    | missing =>
      rw [hk] at h
      cases h
  | .scalar (.int n) => cases h
  | .map m => cases h

theorem checkStartDate_ok_inv (v : ConfigValue) (d : ConfigDate)
    (h : checkStartDate (some v) = .ok d) :
    ∃ s, v = .scalar (.str s) ∧ parseDate s = some d := by
  match v with
  | .scalar (.str s) =>
    simp only [checkStartDate] at h
    cases hp : parseDate s with
    | some d0 =>
      rw [hp] at h
      cases h
      exact ⟨s, rfl, hp⟩
    | none =>
      rw [hp] at h
      cases h
  | .scalar (.int n) => cases h
  | .map m => cases h

theorem checkIntField_ok_inv (name : String) (v : ConfigValue) (n : Int)
    (h : checkIntField name (some v) = .ok n) : v = .scalar (.int n) := by
  match v with
  | .scalar (.str s) => cases h
  | .scalar (.int m) =>
    simp only [checkIntField] at h
    cases h
    rfl
  | .map m => cases h

theorem errList_eq_nil_iff {α : Type} (r : Except ValidationError α) :
    errList r = [] ↔ ∃ a, r = .ok a := by
  cases r <;> simp [errList]

theorem validateDataConfig_error_ne_nil (fs : FileSystem) (v : ConfigValue)
    (es : List ValidationError) (h : validateDataConfig fs v = .error es) : es ≠ [] := by
  match v with
  | .scalar s =>
    simp only [validateDataConfig] at h
    cases h
    simp
  | .map fields =>
    by_cases hne : dataErrsAll fs fields = []
    · exfalso
      unfold dataErrsAll at hne
      simp only [List.append_eq_nil] at hne
      obtain ⟨⟨⟨⟨h1, h2⟩, h3⟩, h4⟩, h5⟩ := hne
      obtain ⟨a, ha⟩ := (errList_eq_nil_iff _).mp h1
      obtain ⟨b, hb⟩ := (errList_eq_nil_iff _).mp h2
      obtain ⟨c, hc⟩ := (errList_eq_nil_iff _).mp h3
      obtain ⟨d, hd⟩ := (errList_eq_nil_iff _).mp h4
      rw [validateDataConfig_ok fs fields a b c d ha hb hc hd h5] at h
      cases h
    · rw [validateDataConfig_error_of_ne fs fields hne] at h
      cases h
      exact hne

theorem validateModelConfig_error_ne_nil (v : ConfigValue)
    (es : List ValidationError) (h : validateModelConfig v = .error es) : es ≠ [] := by
  match v with
  | .scalar s =>
    simp only [validateModelConfig] at h
    cases h
    simp
  | .map fields =>
    by_cases hne : modelErrsAll fields = []
    · exfalso
      unfold modelErrsAll at hne
      simp only [List.append_eq_nil] at hne
      obtain ⟨⟨h1, h2⟩, h3⟩ := hne
      obtain ⟨a, ha⟩ := (errList_eq_nil_iff _).mp h1
      obtain ⟨b, hb⟩ := (errList_eq_nil_iff _).mp h2
      rw [validateModelConfig_ok fields a b ha hb h3] at h
      cases h
    · rw [validateModelConfig_error_of_ne fields hne] at h
      cases h
      exact hne

/-- C7: validation also runs on mutation: assigning to a field of an
already-constructed record succeeds without error exactly when the new
value satisfies that field's constraint, and assigning to an undeclared
attribute always raises. -/
theorem C7_assignment_validates (fs : FileSystem) :
    (∀ (c : DataConfig) (v : ConfigValue),
      ((c.setField fs "data_format" v).2 = [] ↔
        v = .scalar (.str "DB") ∨ v = .scalar (.str "SAP")) ∧
      ((c.setField fs "input_path" v).2 = [] ↔
        ∃ p, v = .scalar (.str p) ∧ fs.kind p ≠ .missing) ∧
      ((c.setField fs "start_date" v).2 = [] ↔
        ∃ s d, v = .scalar (.str s) ∧ parseDate s = some d) ∧
      ((c.setField fs "window" v).2 = [] ↔ ∃ n, v = .scalar (.int n))) ∧
    (∀ (c : ModelConfig) (v : ConfigValue),
      ((c.setField "num_estimators" v).2 = [] ↔ ∃ n, v = .scalar (.int n)) ∧
      ((c.setField "max_depth" v).2 = [] ↔ ∃ n, v = .scalar (.int n))) ∧
    (∀ (c : ProjectConfig) (v : ConfigValue),
      ((c.setField fs "data" v).2 = [] ↔ ∃ d, validateDataConfig fs v = .ok d) ∧
      ((c.setField fs "model" v).2 = [] ↔ ∃ m, validateModelConfig v = .ok m)) ∧
    (∀ (c : DataConfig) (name : String) (v : ConfigValue),
      name ∉ declaredData → (c.setField fs name v).2 ≠ []) := by
  refine ⟨?_, ?_, ?_, ?_⟩
  · intro c v
    refine ⟨⟨?_, ?_⟩, ⟨?_, ?_⟩, ⟨?_, ?_⟩, ⟨?_, ?_⟩⟩
    · intro h
      cases hc : checkDataFormat (some v) with
      | ok s =>
        obtain ⟨rfl, hs⟩ := checkDataFormat_ok_inv v s hc
        rcases hs with rfl | rfl
        · exact Or.inl rfl
        · exact Or.inr rfl
      | error e => simp [DataConfig.setField, hc] at h
    · intro hv
      rcases hv with rfl | rfl <;> simp [DataConfig.setField, checkDataFormat]
    · intro h
      cases hc : checkInputPath fs (some v) with
      | ok p =>
        obtain ⟨rfl, hp⟩ := checkInputPath_ok_inv fs v p hc
        exact ⟨p, rfl, hp⟩
      | error e => simp [DataConfig.setField, hc] at h
    · rintro ⟨p, rfl, hp⟩
      simp [DataConfig.setField, checkInputPath_ok_of_exists fs p hp]
    · intro h
      cases hc : checkStartDate (some v) with
      | ok d =>
        obtain ⟨s, rfl, hp⟩ := checkStartDate_ok_inv v d hc
        exact ⟨s, d, rfl, hp⟩
      | error e => simp [DataConfig.setField, hc] at h
    · rintro ⟨s, d, rfl, hp⟩
      simp [DataConfig.setField, checkStartDate_ok_of_parse s d hp]
    · intro h
      cases hc : checkIntField "window" (some v) with
      | ok n => exact ⟨n, checkIntField_ok_inv _ v n hc⟩
      | error e => simp [DataConfig.setField, hc] at h
    · rintro ⟨n, rfl⟩
      simp [DataConfig.setField, checkIntField]
  · intro c v
    refine ⟨⟨?_, ?_⟩, ⟨?_, ?_⟩⟩
    · intro h
      cases hc : checkIntField "num_estimators" (some v) with
      | ok n => exact ⟨n, checkIntField_ok_inv _ v n hc⟩
      | error e => simp [ModelConfig.setField, hc] at h
    · rintro ⟨n, rfl⟩
      simp [ModelConfig.setField, checkIntField]
    · intro h
      cases hc : checkIntField "max_depth" (some v) with
      | ok n => exact ⟨n, checkIntField_ok_inv _ v n hc⟩
      | error e => simp [ModelConfig.setField, hc] at h
    · rintro ⟨n, rfl⟩
      simp [ModelConfig.setField, checkIntField]
  · intro c v
    refine ⟨⟨?_, ?_⟩, ⟨?_, ?_⟩⟩
    · intro h
      cases hc : validateDataConfig fs v with
      | ok d => exact ⟨d, rfl⟩
      | error es =>
        simp [ProjectConfig.setField, hc, errsUnder] at h
        exact absurd h (validateDataConfig_error_ne_nil fs v es hc)
    · rintro ⟨d, hd⟩
      simp [ProjectConfig.setField, hd]
    · intro h
      cases hc : validateModelConfig v with
      | ok m => exact ⟨m, rfl⟩
      | error es =>
        simp [ProjectConfig.setField, hc, errsUnder] at h
        exact absurd h (validateModelConfig_error_ne_nil v es hc)
    · rintro ⟨m, hm⟩
      simp [ProjectConfig.setField, hm]
  · intro c name v hname
    simp only [declaredData, List.mem_cons, List.not_mem_nil, or_false, not_or] at hname
    obtain ⟨h1, h2, h3, h4⟩ := hname
    simp [DataConfig.setField, h1, h2, h3, h4]

/-- C7 witness: the characterization instantiated at concrete records and
values. -/
theorem C7_assignment_validates_witness :
    (((DataConfig.setField exampleFS ⟨"DB", "/data", ⟨2024, 1, 2⟩, 7⟩ "data_format"
        (.scalar (.str "CSV"))).2 = [] ↔
      ConfigValue.scalar (.str "CSV") = .scalar (.str "DB") ∨
      ConfigValue.scalar (.str "CSV") = .scalar (.str "SAP")) ∧
     ((DataConfig.setField exampleFS ⟨"DB", "/data", ⟨2024, 1, 2⟩, 7⟩ "input_path"
        (.scalar (.str "/nowhere"))).2 = [] ↔
      ∃ p, ConfigValue.scalar (.str "/nowhere") = .scalar (.str p) ∧
        exampleFS.kind p ≠ .missing)) ∧
    ((ModelConfig.setField ⟨100, 5⟩ "max_depth" (.scalar (.str "deep"))).2 = [] ↔
      ∃ n, ConfigValue.scalar (.str "deep") = .scalar (.int n)) ∧
    (DataConfig.setField exampleFS ⟨"DB", "/data", ⟨2024, 1, 2⟩, 7⟩ "wndow"
      (.scalar (.int 3))).2 ≠ [] :=
  ⟨⟨((C7_assignment_validates exampleFS).1 ⟨"DB", "/data", ⟨2024, 1, 2⟩, 7⟩
       (.scalar (.str "CSV"))).1,
    ((C7_assignment_validates exampleFS).1 ⟨"DB", "/data", ⟨2024, 1, 2⟩, 7⟩
       (.scalar (.str "/nowhere"))).2.1⟩,
   ((C7_assignment_validates exampleFS).2.1 ⟨100, 5⟩ (.scalar (.str "deep"))).2,
   (C7_assignment_validates exampleFS).2.2.2 ⟨"DB", "/data", ⟨2024, 1, 2⟩, 7⟩ "wndow"
     (.scalar (.int 3)) (by decide)⟩

theorem parseDate_valid (s : String) (d : ConfigDate) (h : parseDate s = some d) :
    validDate d.year d.month d.day = true := by
  unfold parseDate at h
  split at h
  · split at h
    · split at h
      · rename_i hv
        cases h
        exact hv
      · cases h
    · cases h
  · cases h

theorem checkDataFormat_ok_val (o : Option ConfigValue) (a : String)
    (h : checkDataFormat o = .ok a) : a = "DB" ∨ a = "SAP" := by
  match o with
  | none => cases h
  | some v => exact (checkDataFormat_ok_inv v a h).2

theorem checkInputPath_ok_val (fs : FileSystem) (o : Option ConfigValue) (p : String)
    (h : checkInputPath fs o = .ok p) : fs.kind p ≠ .missing := by
  match o with
  | none => cases h
  | some v => exact (checkInputPath_ok_inv fs v p h).2

theorem checkStartDate_ok_val (o : Option ConfigValue) (d : ConfigDate)
    (h : checkStartDate o = .ok d) : validDate d.year d.month d.day = true := by
  match o with
  | none => cases h
  | some v =>
    obtain ⟨s, _, hp⟩ := checkStartDate_ok_inv v d h
    exact parseDate_valid s d hp

/-- C10: a rejected assignment leaves the record unchanged in every
model, a freshly validated `DataConfig` satisfies its semantic
constraints, and assignment preserves them — so a constructed record
never holds a constraint-violating value. -/
theorem C10_rejected_assignment_atomic (fs : FileSystem) :
    (∀ (c : DataConfig) (name : String) (v : ConfigValue),
      (c.setField fs name v).2 ≠ [] → (c.setField fs name v).1 = c) ∧
    (∀ (c : ModelConfig) (name : String) (v : ConfigValue),
      (c.setField name v).2 ≠ [] → (c.setField name v).1 = c) ∧
    (∀ (c : ProjectConfig) (name : String) (v : ConfigValue),
      (c.setField fs name v).2 ≠ [] → (c.setField fs name v).1 = c) ∧
    (∀ (v : ConfigValue) (c : DataConfig),
      validateDataConfig fs v = .ok c → c.Valid fs) ∧
    (∀ (c : DataConfig) (name : String) (v : ConfigValue),
      c.Valid fs → ((c.setField fs name v).1).Valid fs) := by
  refine ⟨?_, ?_, ?_, ?_, ?_⟩
  · intro c name v
    unfold DataConfig.setField
    split
    · cases hc : checkDataFormat (some v) with
      | ok s => intro h; exact absurd rfl h
      | error e => intro _; rfl
    · split
      · cases hc : checkInputPath fs (some v) with
        | ok p => intro h; exact absurd rfl h
        | error e => intro _; rfl
      · split
        · cases hc : checkStartDate (some v) with
          | ok d => intro h; exact absurd rfl h
          | error e => intro _; rfl
        · split
          · cases hc : checkIntField "window" (some v) with
            | ok n => intro h; exact absurd rfl h
            | error e => intro _; rfl
          · intro _; rfl
  · intro c name v
    unfold ModelConfig.setField
    split
    · cases hc : checkIntField "num_estimators" (some v) with
      | ok n => intro h; exact absurd rfl h
      | error e => intro _; rfl
    · split
      · cases hc : checkIntField "max_depth" (some v) with
        | ok n => intro h; exact absurd rfl h
        | error e => intro _; rfl
      · intro _; rfl
  · intro c name v
    unfold ProjectConfig.setField
    split
    · cases hc : validateDataConfig fs v with
      | ok d => intro h; exact absurd rfl h
      | error es => intro _; rfl
    · split
      · cases hc : validateModelConfig v with
        | ok m => intro h; exact absurd rfl h
        | error es => intro _; rfl
      · intro _; rfl
  · intro v c hok
    match v with
    | .scalar s => simp only [validateDataConfig] at hok; cases hok
    | .map fields =>
      simp only [validateDataConfig] at hok
      split at hok
      · rename_i a b cd dv heq1 heq2 heq3 heq4 heq5
        cases hok
        exact ⟨checkDataFormat_ok_val _ a heq1, checkInputPath_ok_val fs _ b heq2,
               checkStartDate_ok_val _ cd heq3⟩
      · cases hok
  · intro c name v hval
    unfold DataConfig.setField
    split
    · cases hc : checkDataFormat (some v) with
      | ok s => exact ⟨(checkDataFormat_ok_inv v s hc).2, hval.2.1, hval.2.2⟩
      | error e => exact hval
    · split
      · cases hc : checkInputPath fs (some v) with
        | ok p => exact ⟨hval.1, (checkInputPath_ok_inv fs v p hc).2, hval.2.2⟩
        | error e => exact hval
      · split
        · cases hc : checkStartDate (some v) with
          | ok d =>
            obtain ⟨s, _, hp⟩ := checkStartDate_ok_inv v d hc
            exact ⟨hval.1, hval.2.1, parseDate_valid s d hp⟩
          | error e => exact hval
        · split
          · cases hc : checkIntField "window" (some v) with
            | ok n => exact ⟨hval.1, hval.2.1, hval.2.2⟩
            | error e => exact hval
          · exact hval

/-- C10 witness: a rejected `data_format` assignment leaves the record
unchanged, validation of the example tree yields a semantically valid
record, and a (rejected or accepted) assignment keeps it valid. -/
theorem C10_rejected_assignment_atomic_witness :
    ((DataConfig.setField exampleFS ⟨"DB", "/data", ⟨2024, 1, 2⟩, 7⟩ "data_format"
        (.scalar (.str "CSV"))).2 ≠ [] →
      (DataConfig.setField exampleFS ⟨"DB", "/data", ⟨2024, 1, 2⟩, 7⟩ "data_format"
        (.scalar (.str "CSV"))).1 = ⟨"DB", "/data", ⟨2024, 1, 2⟩, 7⟩) ∧
    (validateDataConfig exampleFS (.map exampleDataFields) = .ok ⟨"DB", "/data", ⟨2024, 1, 2⟩, 7⟩ →
      DataConfig.Valid exampleFS ⟨"DB", "/data", ⟨2024, 1, 2⟩, 7⟩) ∧
    (DataConfig.Valid exampleFS ⟨"DB", "/data", ⟨2024, 1, 2⟩, 7⟩ →
      DataConfig.Valid exampleFS
        ((DataConfig.setField exampleFS ⟨"DB", "/data", ⟨2024, 1, 2⟩, 7⟩ "window"
          (.scalar (.str "later"))).1)) ∧
    (DataConfig.setField exampleFS ⟨"DB", "/data", ⟨2024, 1, 2⟩, 7⟩ "data_format"
        (.scalar (.str "CSV"))).2 ≠ [] :=
  ⟨(C10_rejected_assignment_atomic exampleFS).1 ⟨"DB", "/data", ⟨2024, 1, 2⟩, 7⟩ "data_format"
      (.scalar (.str "CSV")),
   (C10_rejected_assignment_atomic exampleFS).2.2.2.1 (.map exampleDataFields)
      ⟨"DB", "/data", ⟨2024, 1, 2⟩, 7⟩,
   fun h => (C10_rejected_assignment_atomic exampleFS).2.2.2.2 ⟨"DB", "/data", ⟨2024, 1, 2⟩, 7⟩
      "window" (.scalar (.str "later")) h,
   by decide⟩

/-- C8: on a tree that validates, the entry point performs, in order:
resolve interpolations, log the raw tree serialized as text, validate,
log the typed record, then emit the four fixed log lines at strictly
decreasing severity (critical, error, warning, debug); nothing else
happens. -/
theorem C8_main_sequence (fs : FileSystem) (cla : Fields) (c : ProjectConfig)
    (h : validateProjectConfig fs cla = .ok c) :
    mainTrace fs cla =
      [Event.resolve,
       Event.logMsg .info ("Loaded Config:\n" ++ String.mk (toYamlText cla)),
       Event.logMsg .info ("cla pydantic: " ++ pyStr c),
       Event.logMsg .critical "I am a Critical Message!",
       Event.logMsg .error "I am an Error Message!",
       Event.logMsg .warning "I am a Warning Message!",
       Event.logMsg .debug "I am a Debug Message."] ∧
    List.Chain' (fun a b => LogLevel.rank b < LogLevel.rank a)
      [LogLevel.critical, LogLevel.error, LogLevel.warning, LogLevel.debug] := by
  constructor
  · unfold mainTrace
    rw [h]
  · exact List.chain'_cons.mpr ⟨by decide, List.chain'_cons.mpr ⟨by decide,
      List.chain'_cons.mpr ⟨by decide, List.chain'_singleton _⟩⟩⟩

/-- C8 witness: the trace of the entry point on the example tree. -/
theorem C8_main_sequence_witness :
    mainTrace exampleFS exampleTree =
      [Event.resolve,
       Event.logMsg .info ("Loaded Config:\n" ++ String.mk (toYamlText exampleTree)),
       Event.logMsg .info ("cla pydantic: " ++ pyStr exampleConfig),
       Event.logMsg .critical "I am a Critical Message!",
       Event.logMsg .error "I am an Error Message!",
       Event.logMsg .warning "I am a Warning Message!",
       Event.logMsg .debug "I am a Debug Message."] ∧
    List.Chain' (fun a b => LogLevel.rank b < LogLevel.rank a)
      [LogLevel.critical, LogLevel.error, LogLevel.warning, LogLevel.debug] :=
  C8_main_sequence exampleFS exampleTree exampleConfig rfl

/-!  Round-trip of the YAML text model. -/

theorem mk_data_eq (s : String) : String.mk s.data = s := rfl

theorem drop_replicate (ind : Nat) (cs : List Char) :
    (List.replicate ind ' ' ++ cs).drop ind = cs := by
  induction ind with
  | zero => rfl
  | succ n ih => simpa [List.replicate] using ih

theorem splitNl_append (l cs : List Char) (h : '\n' ∉ l) :
    splitNl (l ++ '\n' :: cs) = l :: splitNl cs := by
  induction l with
  | nil => simp [splitNl]
  | cons c l' ih =>
    have hc : c ≠ '\n' := fun hq => h (by rw [hq]; exact List.mem_cons_self _ _)
    have hl : '\n' ∉ l' := fun hq => h (List.mem_cons_of_mem _ hq)
    simp only [List.cons_append, splitNl, List.append_eq]
    rw [if_neg hc, ih hl]

theorem splitNl_no_newline (l : List Char) (h : '\n' ∉ l) : splitNl l = [l] := by
  induction l with
  | nil => rfl
  | cons c l' ih =>
    have hc : c ≠ '\n' := fun hq => h (by rw [hq]; exact List.mem_cons_self _ _)
    have hl : '\n' ∉ l' := fun hq => h (List.mem_cons_of_mem _ hq)
    simp only [splitNl, List.append_eq]
    rw [if_neg hc, ih hl]

theorem splitNl_joinLines (ls : List (List Char)) (hnl : ∀ l ∈ ls, '\n' ∉ l)
    (hne : ls ≠ []) : splitNl (joinLines ls) = ls := by
  induction ls with
  | nil => exact absurd rfl hne
  | cons l ls' ih =>
    cases ls' with
    | nil => exact splitNl_no_newline l (hnl l (List.mem_cons_self _ _))
    | cons l2 ls2 =>
      show splitNl (l ++ '\n' :: joinLines (l2 :: ls2)) = l :: l2 :: ls2
      rw [splitNl_append l _ (hnl l (List.mem_cons_self _ _))]
      rw [ih (fun x hx => hnl x (List.mem_cons_of_mem _ hx)) (by simp)]

theorem countLeadingSpaces_replicate_append (ind : Nat) (cs : List Char)
    (h : cs.head? ≠ some ' ') :
    countLeadingSpaces (List.replicate ind ' ' ++ cs) = ind := by
  induction ind with
  | zero =>
    cases cs with
    | nil => rfl
    | cons c cs' =>
      have hc : c ≠ ' ' := by simpa using h
      simp [countLeadingSpaces, hc]
  | succ n ih =>
    simpa [List.replicate, countLeadingSpaces] using ih

theorem countLeadingSpaces_key (ind : Nat) (k : String) (suffix : List Char)
    (hk : keyWF k = true) :
    countLeadingSpaces ((List.replicate ind ' ' ++ k.data) ++ suffix) = ind := by
  simp only [keyWF, decide_eq_true_eq] at hk
  obtain ⟨hne, _, _, hhead⟩ := hk
  rw [List.append_assoc]
  apply countLeadingSpaces_replicate_append
  cases hd : k.data with
  | nil => exact absurd hd hne
  | cons c cs =>
    have : c ≠ ' ' := by
      rw [hd] at hhead
      simpa using hhead
    simpa using this

theorem splitColonSpace_scalar (k text : List Char) (hk : ':' ∉ k) :
    splitColonSpace (k ++ ':' :: ' ' :: text) = some (k, text) := by
  induction k with
  | nil => simp [splitColonSpace]
  | cons c cs ih =>
    have hc : c ≠ ':' := fun h => hk (by rw [h]; exact List.mem_cons_self _ _)
    have hcs : ':' ∉ cs := fun h => hk (List.mem_cons_of_mem _ h)
    simp only [List.cons_append, splitColonSpace, List.append_eq]
    rw [if_neg (by simp [hc]), ih hcs]

theorem splitColonSpace_mapline (k : List Char) (hk : ':' ∉ k) :
    splitColonSpace (k ++ [':']) = none := by
  induction k with
  | nil => simp [splitColonSpace]
  | cons c cs ih =>
    have hc : c ≠ ':' := fun h => hk (by rw [h]; exact List.mem_cons_self _ _)
    have hcs : ':' ∉ cs := fun h => hk (List.mem_cons_of_mem _ h)
    simp only [List.cons_append, splitColonSpace, List.append_eq]
    rw [if_neg (by simp [hc]), ih hcs]

/-!  Scalar text round-trip: decimal integers and quoted strings. -/

theorem charDigit?_digitChar (r : Nat) (h : r < 10) : charDigit? (digitChar r) = some r := by
  interval_cases r <;> decide

theorem digitChar_bounds (r : Nat) (h : r < 10) : '0' ≤ digitChar r ∧ digitChar r ≤ '9' := by
  interval_cases r <;> exact ⟨by decide, by decide⟩

theorem natToChars_ne_nil (n : Nat) : natToChars n ≠ [] := by
  unfold natToChars
  split
  · simp
  · simp

theorem natToChars_digits (n : Nat) : ∀ c ∈ natToChars n, '0' ≤ c ∧ c ≤ '9' := by
  induction n using Nat.strong_induction_on with
  | _ n ih =>
    intro c hc
    unfold natToChars at hc
    split at hc
    · rename_i h
      simp only [List.mem_singleton] at hc
      subst hc
      exact digitChar_bounds n h
    · rename_i h
      simp only [List.mem_append, List.mem_singleton] at hc
      rcases hc with hc | hc
      · exact ih (n / 10) (Nat.div_lt_self (by omega) (by omega)) c hc
      · subst hc
        exact digitChar_bounds (n % 10) (Nat.mod_lt _ (by omega))

theorem charsToNatAux_append (xs ys : List Char) :
    ∀ acc, charsToNatAux (xs ++ ys) acc =
      match charsToNatAux xs acc with
      | some a => charsToNatAux ys a
      | none => none := by
  induction xs with
  | nil => intro acc; rfl
  | cons c cs ih =>
    intro acc
    cases hcd : charDigit? c with
    | some d => simp [charsToNatAux, hcd, ih]
    | none => simp [charsToNatAux, hcd]

theorem charsToNatAux_natToChars (n : Nat) : ∀ acc,
    charsToNatAux (natToChars n) acc = some (acc * 10 ^ (natToChars n).length + n) := by
  induction n using Nat.strong_induction_on with
  | _ n ih =>
    intro acc
    unfold natToChars
    split
    · rename_i h
      simp [charsToNatAux, charDigit?_digitChar n h, pow_one]
    · rename_i h
      rw [charsToNatAux_append, ih (n / 10) (Nat.div_lt_self (by omega) (by omega)) acc]
      simp only [charsToNatAux, charDigit?_digitChar (n % 10) (Nat.mod_lt _ (by omega)),
        List.length_append, List.length_singleton, Option.some.injEq]
      rw [pow_succ, ← mul_assoc]
      generalize acc * 10 ^ (natToChars (n / 10)).length = A
      omega

theorem charsToNat_natToChars (n : Nat) : charsToNatAux (natToChars n) 0 = some n := by
  rw [charsToNatAux_natToChars n 0]
  simp

theorem natToChars_head (n : Nat) :
    ∃ c cs, natToChars n = c :: cs ∧ '0' ≤ c ∧ c ≤ '9' := by
  cases hE : natToChars n with
  | nil => exact absurd hE (natToChars_ne_nil n)
  | cons c cs =>
    exact ⟨c, cs, rfl, natToChars_digits n c (by rw [hE]; exact List.mem_cons_self _ _)⟩

theorem charsToInt?_natToChars (m : Nat) : charsToInt? (natToChars m) = some (m : Int) := by
  obtain ⟨c, cs, hE, hc0, _⟩ := natToChars_head m
  have hcm : c ≠ '-' := by
    intro h
    subst h
    exact absurd hc0 (by decide)
  unfold charsToInt?
  rw [if_neg (by rw [hE]; simp), if_neg (by rw [hE]; simp [hcm]), charsToNat_natToChars]
  rfl

theorem charsToInt?_intToChars (n : Int) : charsToInt? (intToChars n) = some n := by
  cases n with
  | ofNat m => exact charsToInt?_natToChars m
  | negSucc k =>
    show charsToInt? ('-' :: natToChars (k + 1)) = some (.negSucc k)
    unfold charsToInt?
    rw [if_neg (by simp), if_pos (by simp),
      if_neg (by simpa using natToChars_ne_nil (k + 1))]
    rw [List.tail_cons, charsToNat_natToChars]
    have hns : Int.negSucc k = -((k + 1 : Nat) : Int) := by
      rw [Int.negSucc_eq]
      push_cast
      ring
    rw [hns]
    rfl

theorem escapeChars_ne_nil (c : Char) (cs : List Char) : escapeChars (c :: cs) ≠ [] := by
  unfold escapeChars
  split
  · simp
  · split
    · simp
    · split
      · simp
      · simp

theorem unescapeChars_escapeChars (l : List Char) : unescapeChars (escapeChars l) = l := by
  induction l with
  | nil => rfl
  | cons c cs ih =>
    by_cases h1 : c = '\\'
    · subst h1
      have hE : escapeChars ('\\' :: cs) = '\\' :: '\\' :: escapeChars cs := by
        simp [escapeChars]
      have hU : unescapeChars ('\\' :: '\\' :: escapeChars cs) =
          '\\' :: unescapeChars (escapeChars cs) := by
        simp [unescapeChars]
      rw [hE, hU, ih]
    · by_cases h2 : c = '"'
      · subst h2
        have hE : escapeChars ('"' :: cs) = '\\' :: '"' :: escapeChars cs := by
          simp [escapeChars]
        have hU : unescapeChars ('\\' :: '"' :: escapeChars cs) =
            '"' :: unescapeChars (escapeChars cs) := by
          simp [unescapeChars]
        rw [hE, hU, ih]
      · by_cases h3 : c = '\n'
        · subst h3
          have hE : escapeChars ('\n' :: cs) = '\\' :: 'n' :: escapeChars cs := by
            simp [escapeChars]
          have hU : unescapeChars ('\\' :: 'n' :: escapeChars cs) =
              '\n' :: unescapeChars (escapeChars cs) := by
            simp [unescapeChars]
          rw [hE, hU, ih]
        · have hE : escapeChars (c :: cs) = c :: escapeChars cs := by
            simp [escapeChars, h1, h2, h3]
          rw [hE]
          cases hEC : escapeChars cs with
          | nil =>
            have hcs : cs = [] := by
              cases cs with
              | nil => rfl
              | cons c2 cs2 => exact absurd hEC (escapeChars_ne_nil c2 cs2)
            subst hcs
            rfl
          | cons e es =>
            have hU : unescapeChars (c :: escapeChars cs) = c :: unescapeChars (escapeChars cs) := by
              rw [hEC]
              simp [unescapeChars, h1]
            rw [← hEC, hU, ih]

theorem escapeChars_no_newline (l : List Char) : '\n' ∉ escapeChars l := by
  induction l with
  | nil => simp [escapeChars]
  | cons c cs ih =>
    by_cases h1 : c = '\\'
    · subst h1
      have hE : escapeChars ('\\' :: cs) = '\\' :: '\\' :: escapeChars cs := by
        simp [escapeChars]
      rw [hE]
      intro hmem
      rcases List.mem_cons.mp hmem with h | hmem2
      · exact absurd h (by decide)
      rcases List.mem_cons.mp hmem2 with h | hmem3
      · exact absurd h (by decide)
      · exact ih hmem3
    · by_cases h2 : c = '"'
      · subst h2
        have hE : escapeChars ('"' :: cs) = '\\' :: '"' :: escapeChars cs := by
          simp [escapeChars]
        rw [hE]
        intro hmem
        rcases List.mem_cons.mp hmem with h | hmem2
        · exact absurd h (by decide)
        rcases List.mem_cons.mp hmem2 with h | hmem3
        · exact absurd h (by decide)
        · exact ih hmem3
      · by_cases h3 : c = '\n'
        · subst h3
          have hE : escapeChars ('\n' :: cs) = '\\' :: 'n' :: escapeChars cs := by
            simp [escapeChars]
          rw [hE]
          intro hmem
          rcases List.mem_cons.mp hmem with h | hmem2
          · exact absurd h (by decide)
          rcases List.mem_cons.mp hmem2 with h | hmem3
          · exact absurd h (by decide)
          · exact ih hmem3
        · have hE : escapeChars (c :: cs) = c :: escapeChars cs := by
            simp [escapeChars, h1, h2, h3]
          rw [hE]
          intro hmem
          rcases List.mem_cons.mp hmem with h | hmem2
          · exact h3 h.symm
          · exact ih hmem2

theorem charsToInt?_quoted (rest : List Char) : charsToInt? ('"' :: rest) = none := by
  have hd : charDigit? '"' = none := by decide
  unfold charsToInt?
  rw [if_neg (by simp),
    if_neg (by intro h; simp only [List.head?_cons, Option.some.injEq] at h; exact absurd h (by decide))]
  simp [charsToNatAux, hd]

theorem parseScalar_quoted (body : List Char) :
    parseScalar ('"' :: (body ++ ['"'])) = .str (String.mk (unescapeChars body)) := by
  unfold parseScalar
  rw [charsToInt?_quoted]
  rw [if_pos ⟨rfl, by simp, by rw [List.tail_cons]; exact List.getLast?_concat (body)⟩]
  rw [List.tail_cons, List.dropLast_concat]

theorem parseScalar_scalarChars (s : Scalar) : parseScalar (scalarChars s) = s := by
  cases s with
  | int n =>
    show parseScalar (intToChars n) = .int n
    unfold parseScalar
    rw [charsToInt?_intToChars]
  | str t =>
    show parseScalar
      (if needsQuote t.data then '"' :: (escapeChars t.data ++ ['"']) else t.data) = .str t
    by_cases hq : needsQuote t.data = true
    · rw [if_pos hq, parseScalar_quoted, unescapeChars_escapeChars, mk_data_eq]
    · rw [if_neg hq]
      have hq' : ¬t.data = [] ∧ charsToInt? t.data = none ∧
          '\n' ∉ t.data ∧ '"' ∉ t.data := by
        simpa [needsQuote, and_assoc] using hq
      obtain ⟨hne, hci, hnl, hqc⟩ := hq'
      have hcond : ¬(t.data.head? = some '"' ∧ t.data.tail ≠ [] ∧
          t.data.tail.getLast? = some '"') := by
        rintro ⟨hhead, -, -⟩
        cases hd : t.data with
        | nil => rw [hd] at hhead; cases hhead
        | cons c cs =>
          rw [hd] at hhead
          simp only [List.head?_cons, Option.some.injEq] at hhead
          subst hhead
          rw [hd] at hqc
          exact hqc (List.mem_cons_self _ _)
      unfold parseScalar
      rw [hci, if_neg hcond, mk_data_eq]

theorem scalarChars_no_newline (s : Scalar) : '\n' ∉ scalarChars s := by
  cases s with
  | str t =>
    show '\n' ∉ (if needsQuote t.data then '"' :: (escapeChars t.data ++ ['"']) else t.data)
    by_cases hq : needsQuote t.data = true
    · rw [if_pos hq]
      intro hmem
      rcases List.mem_cons.mp hmem with h | hmem2
      · exact absurd h (by decide)
      rcases List.mem_append.mp hmem2 with h | h
      · exact escapeChars_no_newline t.data h
      · simp only [List.mem_singleton] at h
        exact absurd h (by decide)
    · rw [if_neg hq]
      have hq' : ¬t.data = [] ∧ charsToInt? t.data = none ∧
          '\n' ∉ t.data ∧ '"' ∉ t.data := by
        simpa [needsQuote, and_assoc] using hq
      exact hq'.2.2.1
  | int n =>
    show '\n' ∉ intToChars n
    cases n with
    | ofNat m =>
      intro hmem
      have := natToChars_digits m '\n' hmem
      exact absurd this.1 (by decide)
    | negSucc k =>
      intro hmem
      rcases List.mem_cons.mp hmem with h | hmem2
      · exact absurd h (by decide)
      · have := natToChars_digits (k + 1) '\n' hmem2
        exact absurd this.1 (by decide)

theorem emitMap_no_newline (ind : Nat) (m : Fields) :
    m.WF = true → ∀ l ∈ emitMap ind m, '\n' ∉ l := by
  induction ind, m using emitMap.induct with
  | case1 ind =>
    intro _ l hl
    simp [emitMap] at hl
  | case2 ind k s rest ih =>
    intro hwf l hl
    obtain ⟨hk, hrest⟩ : keyWF k = true ∧ Fields.WF rest = true := by
      simpa [Fields.WF, ConfigValue.WF, Bool.and_eq_true] using hwf
    simp only [keyWF, decide_eq_true_eq] at hk
    simp only [emitMap, List.mem_cons] at hl
    rcases hl with rfl | hl
    · intro hmem
      simp only [List.mem_append, List.mem_cons, List.mem_replicate] at hmem
      rcases hmem with (⟨_, hsp⟩ | hkd) | hco | hsp2 | hsc
      · cases hsp
      · exact hk.2.2.1 hkd
      · cases hco
      · cases hsp2
      · exact scalarChars_no_newline s hsc
    · exact ih hrest l hl
  | case3 ind k sub rest ih1 ih2 =>
    intro hwf l hl
    obtain ⟨hk, hsub, hrest⟩ : keyWF k = true ∧ Fields.WF sub = true ∧ Fields.WF rest = true := by
      simpa [Fields.WF, ConfigValue.WF, Bool.and_eq_true, and_assoc] using hwf
    simp only [keyWF, decide_eq_true_eq] at hk
    simp only [emitMap, List.mem_cons, List.mem_append] at hl
    rcases hl with rfl | hl | hl
    · intro hmem
      simp only [List.mem_append, List.mem_cons, List.mem_replicate] at hmem
      rcases hmem with (⟨_, hsp⟩ | hkd) | hco
      · cases hsp
      · exact hk.2.2.1 hkd
      · simp at hco
    · exact ih1 hsub l hl
    · exact ih2 hrest l hl

theorem emitMap_head_lead (ind : Nat) (m : Fields) (hwf : m.WF = true) (l : List Char)
    (hl : (emitMap ind m).head? = some l) : countLeadingSpaces l = ind := by
  cases m with
  | nil => simp [emitMap] at hl
  | cons k v rest =>
    cases v with
    | scalar s =>
      obtain ⟨hk, _, _⟩ : keyWF k = true ∧ ConfigValue.WF (.scalar s) = true ∧ Fields.WF rest = true := by
        simpa [Fields.WF, Bool.and_eq_true, and_assoc] using hwf
      simp only [emitMap, List.head?_cons, Option.some.injEq] at hl
      rw [← hl]
      exact countLeadingSpaces_key ind k _ hk
    | map sub =>
      obtain ⟨hk, _, _⟩ : keyWF k = true ∧ ConfigValue.WF (.map sub) = true ∧ Fields.WF rest = true := by
        simpa [Fields.WF, Bool.and_eq_true, and_assoc] using hwf
      simp only [emitMap, List.head?_cons, Option.some.injEq] at hl
      rw [← hl]
      exact countLeadingSpaces_key ind k _ hk

theorem emitMap_length (ind : Nat) (m : Fields) :
    (emitMap ind m).length = m.lineCount := by
  induction ind, m using emitMap.induct with
  | case1 ind => rfl
  | case2 ind k s rest ih =>
    simp [emitMap, Fields.lineCount, ih, Nat.add_comm]
  | case3 ind k sub rest ih1 ih2 =>
    simp [emitMap, Fields.lineCount, ih1, ih2]
    omega

theorem parseLines_emitMap (ind : Nat) (m : Fields) :
    ∀ (fuel : Nat) (extra : List (List Char)), m.WF = true →
    m.lineCount + 1 ≤ fuel →
    (∀ l, extra.head? = some l → countLeadingSpaces l < ind) →
    parseLines fuel ind (emitMap ind m ++ extra) = (some m, extra) := by
  induction ind, m using emitMap.induct with
  | case1 ind =>
    intro fuel extra _ hfuel hextra
    cases fuel with
    | zero => exact absurd hfuel (Nat.not_succ_le_zero _)
    | succ f =>
      cases extra with
      | nil => rfl
      | cons l ls =>
        have hlt := hextra l rfl
        show parseLines (f + 1) ind (l :: ls) = (some .nil, l :: ls)
        simp only [parseLines]
        rw [if_pos hlt]
  | case2 ind k s rest ih =>
    intro fuel extra hwf hfuel hextra
    obtain ⟨hk, hrest⟩ : keyWF k = true ∧ Fields.WF rest = true := by
      simpa [Fields.WF, ConfigValue.WF, Bool.and_eq_true] using hwf
    cases fuel with
    | zero => exact absurd hfuel (Nat.not_succ_le_zero _)
    | succ f =>
      have hfuel2 : rest.lineCount + 1 ≤ f := by
        simp only [Fields.lineCount] at hfuel
        omega
      have hk2 : ':' ∉ k.data := by
        simp only [keyWF, decide_eq_true_eq] at hk
        exact hk.2.1
      have hps : parseScalar (scalarChars s) = s := parseScalar_scalarChars s
      simp only [emitMap, List.cons_append, parseLines, List.append_eq]
      rw [countLeadingSpaces_key ind k _ hk]
      simp only [lt_self_iff_false, if_false]
      rw [List.append_assoc, drop_replicate,
          splitColonSpace_scalar k.data (scalarChars s) hk2]
      simp only [List.append_eq, ih f extra hrest hfuel2 hextra, hps, mk_data_eq]
  | case3 ind k sub rest ih1 ih2 =>
    intro fuel extra hwf hfuel hextra
    obtain ⟨hk, hsub, hrest⟩ : keyWF k = true ∧ Fields.WF sub = true ∧ Fields.WF rest = true := by
      simpa [Fields.WF, ConfigValue.WF, Bool.and_eq_true, and_assoc] using hwf
    cases fuel with
    | zero => exact absurd hfuel (Nat.not_succ_le_zero _)
    | succ f =>
      have hk2 : ':' ∉ k.data := by
        simp only [keyWF, decide_eq_true_eq] at hk
        exact hk.2.1
      have hfsub : sub.lineCount + 1 ≤ f := by
        simp only [Fields.lineCount] at hfuel
        omega
      have hfrest : rest.lineCount + 1 ≤ f := by
        simp only [Fields.lineCount] at hfuel
        omega
      have hextra2 : ∀ l, (emitMap ind rest ++ extra).head? = some l →
          countLeadingSpaces l < ind + 2 := by
        intro l hl
        cases hE : emitMap ind rest with
        | nil =>
          rw [hE, List.nil_append] at hl
          have := hextra l hl
          omega
        | cons l0 ls0 =>
          rw [hE, List.cons_append, List.head?_cons, Option.some.injEq] at hl
          subst hl
          have h0 := emitMap_head_lead ind rest hrest l0 (by rw [hE]; rfl)
          omega
      simp only [emitMap, List.cons_append, parseLines, List.append_eq]
      rw [countLeadingSpaces_key ind k _ hk]
      simp only [lt_self_iff_false, if_false]
      rw [List.append_assoc (List.replicate ind ' '), drop_replicate]
      rw [List.append_assoc (emitMap (ind + 2) sub)]
      simp only [List.append_eq, splitColonSpace_mapline k.data hk2, List.getLast?_concat,
        ih1 f (emitMap ind rest ++ extra) hsub hfsub hextra2,
        ih2 f extra hrest hfrest hextra, List.dropLast_concat, mk_data_eq, if_true]

/-!  Validation success already makes every key in the tree emitter-safe:
all keys are forced into the declared sets by `extra="forbid"`, and the
declared names are plain identifiers. -/

theorem extraErrs_nil_inv (m : Fields) (declared : List String)
    (h : extraErrs m declared = []) : ∀ k ∈ m.keys, k ∈ declared := by
  unfold extraErrs at h
  rw [List.map_eq_nil_iff] at h
  intro k hk
  by_contra hnd
  have hmem : k ∈ m.keys.filter (fun k => k ∉ declared) :=
    List.mem_filter.mpr ⟨hk, by simpa using hnd⟩
  rw [h] at hmem
  cases hmem

theorem lookup_mem_keys (m : Fields) (k : String) (v : ConfigValue)
    (h : m.lookup k = some v) : k ∈ m.keys := by
  induction m using Fields.keys.induct with
  | case1 => cases h
  | case2 k0 v0 rest ih =>
    simp only [Fields.lookup] at h
    by_cases hk : k0 = k
    · subst hk
      simp [Fields.keys]
    · rw [if_neg hk] at h
      simp only [Fields.keys, List.mem_cons]
      exact Or.inr (ih h)

theorem uniqueKeys_cons (k : String) (v : ConfigValue) (rest : Fields)
    (h : Fields.UniqueKeys (.cons k v rest) = true) :
    k ∉ rest.keys ∧ ConfigValue.UniqueKeys v = true ∧ Fields.UniqueKeys rest = true := by
  simpa [Fields.UniqueKeys, Bool.and_eq_true, and_assoc] using h

theorem uniqueKeys_lookup (m : Fields) (k : String) (v : ConfigValue)
    (hu : m.UniqueKeys = true) (h : m.lookup k = some v) :
    ConfigValue.UniqueKeys v = true := by
  induction m using Fields.keys.induct with
  | case1 => cases h
  | case2 k0 v0 rest ih =>
    obtain ⟨hnm, hv0, hrest⟩ := uniqueKeys_cons k0 v0 rest hu
    simp only [Fields.lookup] at h
    by_cases hk : k0 = k
    · rw [if_pos hk] at h
      cases h
      exact hv0
    · rw [if_neg hk] at h
      exact ih hrest h

theorem validateProjectConfig_ok_inv (fs : FileSystem) (fields : Fields) (c : ProjectConfig)
    (h : validateProjectConfig fs fields = .ok c) :
    checkData fs (fields.lookup "data") = .ok c.data ∧
    checkModel (fields.lookup "model") = .ok c.model ∧
    extraErrs fields declaredProject = [] := by
  unfold validateProjectConfig at h
  split at h
  · rename_i a b heq1 heq2 heq3
    cases h
    exact ⟨heq1, heq2, heq3⟩
  · cases h

theorem checkData_ok_inv (fs : FileSystem) (o : Option ConfigValue) (a : DataConfig)
    (h : checkData fs o = .ok a) :
    ∃ v, o = some v ∧ validateDataConfig fs v = .ok a := by
  match o with
  | none => cases h
  | some v =>
    cases hv : validateDataConfig fs v with
    | ok d =>
      have he : checkData fs (some v) = .ok d := by
        simp only [checkData, hv]
      rw [he] at h
      cases h
      exact ⟨v, rfl, hv⟩
    | error es =>
      have he : checkData fs (some v) = .error (errsUnder "data" es) := by
        simp only [checkData, hv]
      rw [he] at h
      cases h

theorem checkModel_ok_inv (o : Option ConfigValue) (a : ModelConfig)
    (h : checkModel o = .ok a) :
    ∃ v, o = some v ∧ validateModelConfig v = .ok a := by
  match o with
  | none => cases h
  | some v =>
    cases hv : validateModelConfig v with
    | ok d =>
      have he : checkModel (some v) = .ok d := by
        simp only [checkModel, hv]
      rw [he] at h
      cases h
      exact ⟨v, rfl, hv⟩
    | error es =>
      have he : checkModel (some v) = .error (errsUnder "model" es) := by
        simp only [checkModel, hv]
      rw [he] at h
      cases h

theorem validateDataConfig_ok_inv (fs : FileSystem) (v : ConfigValue) (c : DataConfig)
    (h : validateDataConfig fs v = .ok c) :
    ∃ fields, v = .map fields ∧
      checkDataFormat (fields.lookup "data_format") = .ok c.data_format ∧
      checkInputPath fs (fields.lookup "input_path") = .ok c.input_path ∧
      checkStartDate (fields.lookup "start_date") = .ok c.start_date ∧
      checkIntField "window" (fields.lookup "window") = .ok c.window ∧
      extraErrs fields declaredData = [] := by
  match v with
  | .scalar s =>
    simp only [validateDataConfig] at h
    cases h
  | .map fields =>
    simp only [validateDataConfig] at h
    split at h
    · rename_i a b cd dv heq1 heq2 heq3 heq4 heq5
      cases h
      exact ⟨fields, rfl, heq1, heq2, heq3, heq4, heq5⟩
    · cases h

theorem validateModelConfig_ok_inv (v : ConfigValue) (c : ModelConfig)
    (h : validateModelConfig v = .ok c) :
    ∃ fields, v = .map fields ∧
      checkIntField "num_estimators" (fields.lookup "num_estimators") = .ok c.num_estimators ∧
      checkIntField "max_depth" (fields.lookup "max_depth") = .ok c.max_depth ∧
      extraErrs fields declaredModel = [] := by
  match v with
  | .scalar s =>
    simp only [validateModelConfig] at h
    cases h
  | .map fields =>
    simp only [validateModelConfig] at h
    split at h
    · rename_i a b heq1 heq2 heq3
      cases h
      exact ⟨fields, rfl, heq1, heq2, heq3⟩
    · cases h

theorem keyWF_declaredData (k : String) (h : k ∈ declaredData) : keyWF k = true := by
  simp only [declaredData, List.mem_cons, List.not_mem_nil, or_false] at h
  rcases h with rfl | rfl | rfl | rfl <;> decide

theorem keyWF_declaredModel (k : String) (h : k ∈ declaredModel) : keyWF k = true := by
  simp only [declaredModel, List.mem_cons, List.not_mem_nil, or_false] at h
  rcases h with rfl | rfl <;> decide

theorem keyWF_declaredProject (k : String) (h : k ∈ declaredProject) : keyWF k = true := by
  simp only [declaredProject, List.mem_cons, List.not_mem_nil, or_false] at h
  rcases h with rfl | rfl <;> decide

theorem fields_wf_of_values (declared : List String)
    (hdecl : ∀ k ∈ declared, keyWF k = true) :
    ∀ m : Fields, (∀ k ∈ m.keys, k ∈ declared) → m.UniqueKeys = true →
      (∀ k v, m.lookup k = some v → ConfigValue.WF v = true) → m.WF = true := by
  intro m
  induction m using Fields.keys.induct with
  | case1 => intro _ _ _; rfl
  | case2 k0 v0 rest ih =>
    intro hkeys hu hval
    obtain ⟨hnm, hv0u, hrestu⟩ := uniqueKeys_cons k0 v0 rest hu
    have hk0wf : keyWF k0 = true := hdecl k0 (hkeys k0 (by simp [Fields.keys]))
    have hv0wf : ConfigValue.WF v0 = true := hval k0 v0 (by simp [Fields.lookup])
    have hrestwf : Fields.WF rest = true := by
      apply ih (fun k hk => hkeys k (by simp only [Fields.keys, List.mem_cons]; exact Or.inr hk))
        hrestu
      intro k v hl
      have hkmem : k ∈ rest.keys := lookup_mem_keys rest k v hl
      have hne : k0 ≠ k := fun he => hnm (by rw [he]; exact hkmem)
      apply hval k v
      simp only [Fields.lookup]
      rw [if_neg hne]
      exact hl
    show (keyWF k0 && ConfigValue.WF v0 && Fields.WF rest) = true
    simp [hk0wf, hv0wf, hrestwf]

theorem dataConfig_values_scalar (fs : FileSystem) (dfields : Fields) (c : DataConfig)
    (h1 : checkDataFormat (dfields.lookup "data_format") = .ok c.data_format)
    (h2 : checkInputPath fs (dfields.lookup "input_path") = .ok c.input_path)
    (h3 : checkStartDate (dfields.lookup "start_date") = .ok c.start_date)
    (h4 : checkIntField "window" (dfields.lookup "window") = .ok c.window)
    (hex : extraErrs dfields declaredData = []) :
    ∀ k v, dfields.lookup k = some v → ConfigValue.WF v = true := by
  intro k v hl
  have hk : k ∈ declaredData :=
    extraErrs_nil_inv dfields declaredData hex k (lookup_mem_keys _ _ _ hl)
  simp only [declaredData, List.mem_cons, List.not_mem_nil, or_false] at hk
  rcases hk with rfl | rfl | rfl | rfl
  · rw [hl] at h1
    obtain ⟨rfl, -⟩ := checkDataFormat_ok_inv v _ h1
    rfl
  · rw [hl] at h2
    obtain ⟨rfl, -⟩ := checkInputPath_ok_inv fs v _ h2
    rfl
  · rw [hl] at h3
    obtain ⟨s, rfl, -⟩ := checkStartDate_ok_inv v _ h3
    rfl
  · rw [hl] at h4
    rw [checkIntField_ok_inv _ v _ h4]
    rfl

theorem modelConfig_values_scalar (mfields : Fields) (c : ModelConfig)
    (h1 : checkIntField "num_estimators" (mfields.lookup "num_estimators") = .ok c.num_estimators)
    (h2 : checkIntField "max_depth" (mfields.lookup "max_depth") = .ok c.max_depth)
    (hex : extraErrs mfields declaredModel = []) :
    ∀ k v, mfields.lookup k = some v → ConfigValue.WF v = true := by
  intro k v hl
  have hk : k ∈ declaredModel :=
    extraErrs_nil_inv mfields declaredModel hex k (lookup_mem_keys _ _ _ hl)
  simp only [declaredModel, List.mem_cons, List.not_mem_nil, or_false] at hk
  rcases hk with rfl | rfl
  · rw [hl] at h1
    rw [checkIntField_ok_inv _ v _ h1]
    rfl
  · rw [hl] at h2
    rw [checkIntField_ok_inv _ v _ h2]
    rfl

theorem wf_of_validateProjectConfig_ok (fs : FileSystem) (t : Fields) (c : ProjectConfig)
    (hu : t.UniqueKeys = true) (hok : validateProjectConfig fs t = .ok c) :
    t.WF = true := by
  obtain ⟨hd, hm, hex⟩ := validateProjectConfig_ok_inv fs t c hok
  apply fields_wf_of_values declaredProject keyWF_declaredProject t
    (extraErrs_nil_inv t declaredProject hex) hu
  intro k v hl
  have hvu : ConfigValue.UniqueKeys v = true := uniqueKeys_lookup t k v hu hl
  have hk : k ∈ declaredProject :=
    extraErrs_nil_inv t declaredProject hex k (lookup_mem_keys _ _ _ hl)
  simp only [declaredProject, List.mem_cons, List.not_mem_nil, or_false] at hk
  rcases hk with rfl | rfl
  · rw [hl] at hd
    obtain ⟨v', hv', hval⟩ := checkData_ok_inv fs _ _ hd
    cases hv'
    obtain ⟨dfields, rfl, h1, h2, h3, h4, hex2⟩ := validateDataConfig_ok_inv fs _ _ hval
    show Fields.WF dfields = true
    exact fields_wf_of_values declaredData keyWF_declaredData dfields
      (extraErrs_nil_inv dfields declaredData hex2)
      (by simpa [ConfigValue.UniqueKeys] using hvu)
      (dataConfig_values_scalar fs dfields c.data h1 h2 h3 h4 hex2)
  · rw [hl] at hm
    obtain ⟨v', hv', hval⟩ := checkModel_ok_inv _ _ hm
    cases hv'
    obtain ⟨mfields, rfl, h1, h2, hex2⟩ := validateModelConfig_ok_inv _ _ hval
    show Fields.WF mfields = true
    exact fields_wf_of_values declaredModel keyWF_declaredModel mfields
      (extraErrs_nil_inv mfields declaredModel hex2)
      (by simpa [ConfigValue.UniqueKeys] using hvu)
      (modelConfig_values_scalar mfields c.model h1 h2 hex2)

/-- C9: serializing a valid resolved configuration tree to YAML text and
re-parsing that text reproduces an equal tree (loader-level round-trip
idempotence).  A resolved tree is a `DictConfig`, i.e. a mapping, so no
key is bound twice (`UniqueKeys`); nothing else is assumed — scalars are
quoted by the emitter exactly when bare text would be ambiguous, and
validation itself forces every key into the declared identifier sets. -/
theorem C9_yaml_roundtrip (fs : FileSystem) (t : Fields) (c : ProjectConfig)
    (hu : t.UniqueKeys = true) (hok : validateProjectConfig fs t = .ok c) :
    parseYamlText (toYamlText t) = some t := by
  have hwf : t.WF = true := wf_of_validateProjectConfig_ok fs t c hu hok
  have hne : t ≠ .nil := by
    intro h
    subst h
    simp [validateProjectConfig, Fields.lookup, checkData, checkModel,
      extraErrs, errListL, Fields.keys] at hok
  have hemitne : emitMap 0 t ≠ [] := by
    cases t with
    | nil => exact absurd rfl hne
    | cons k v rest => cases v <;> simp [emitMap]
  have hnl : ∀ l ∈ emitMap 0 t, '\n' ∉ l := emitMap_no_newline 0 t hwf
  unfold parseYamlText toYamlText
  rw [splitNl_joinLines _ hnl hemitne, emitMap_length]
  have hparse := parseLines_emitMap 0 t (t.lineCount + 1) [] hwf (le_refl _)
    (fun l hl => absurd hl (by simp))
  rw [List.append_nil] at hparse
  rw [hparse]

/-- C9 witness: the example tree is a genuine mapping (no duplicate
keys), validates, and survives the YAML round trip. -/
theorem C9_yaml_roundtrip_witness :
    Fields.UniqueKeys exampleTree = true ∧
    parseYamlText (toYamlText exampleTree) = some exampleTree :=
  ⟨by decide, C9_yaml_roundtrip exampleFS exampleTree exampleConfig (by decide) rfl⟩
